import Mathlib

/-!
# kafkasflowes: Kafka sFlow consumer feeding Elasticsearch

A shallow embedding of `kafka.go`, `main.go` and `elastic.go`.

* The goroutine bodies and the straight-line functions (`InitKafka`,
  `ConsumeAndIndex`, `NewFlowDoc`, `SetLocationData`, `Index`) are pure functions
  over explicit outcomes of the library calls they make.
* The concurrent program started by `main` (lines 106-136) is a step function
  `step` on a `State`; a run is a schedule (a list of `Action`s) folded over the
  start state.  Goroutines block by leaving the state unchanged.
* Go channel rules are part of the model: closing a closed channel, sending on a
  closed channel and a negative wait-group counter panic; a panic, `logrus.Fatal`
  and the return of `main` end the process.
-/

namespace Kafkasflowes

/-! ## Data model -/

/-- Go `error` values, identified by their text. -/
abbrev GoError := String

/-- The fields of `sarama.ConsumerMessage` that the program reads. -/
structure ConsumerMessage where
  Value : List Nat
  Offset : Int
  Partition : Int
deriving DecidableEq, Repr

/-- Two's-complement wrap of an integer into the `int64` range. -/
def wrapInt64 (x : Int) : Int := (x + 2 ^ 63) % 2 ^ 64 - 2 ^ 63

/-- The checkpoint the worker requests for a message: `msg.Offset+1` in `int64`. -/
def checkpointOf (m : ConsumerMessage) : Int := wrapInt64 (m.Offset + 1)

/-- Wrap of a natural number into the `uint64` range. -/
def wrapUint64 (x : Nat) : Nat := x % 2 ^ 64

/-- The constant `sarama.OffsetNewest`. -/
def OffsetNewest : Int := -1

/-- A `sarama.PartitionConsumer`: an identity, the finite sequence its
`Messages()` channel yields before it is closed, and the sequence its `Errors()`
channel yields (a nil pointer is `none`). -/
structure PartitionConsumer where
  id : Nat
  Messages : List ConsumerMessage
  Errors : List (Option GoError)
deriving DecidableEq, Repr

/-- A `sarama.PartitionOffsetManager`, known by its identity. -/
structure PartitionOffsetManager where
  id : Nat
deriving DecidableEq, Repr

/-- The struct `ConsumeManager` of `kafka.go`. -/
structure ConsumeManager where
  pc : PartitionConsumer
  pm : PartitionOffsetManager
deriving DecidableEq, Repr

/-- Outcome of a fallible library call. -/
inductive Outcome (α : Type) where
  | ok (a : α)
  | err (e : GoError)
deriving DecidableEq, Repr

/-- One entry of `s.Partitions` together with what `ManagePartition` and
`ConsumePartition` answer for it in its loop iteration. -/
structure PartitionSetup where
  partition : Int
  ManagePartition : Outcome PartitionOffsetManager
  ConsumePartition : Outcome PartitionConsumer
deriving DecidableEq, Repr

/-- The struct `KafkaConfig` of `kafka.go`. -/
structure KafkaConfig where
  Topic : String
  User : String
  Password : String
  BrokerList : List String
  GroupName : String
  SASL : Bool
deriving DecidableEq, Repr

/-- What the four library calls of `InitKafka` answer. -/
structure BrokerOutcomes where
  NewConsumer : Outcome Nat
  Partitions : Outcome (List Int)
  NewClient : Outcome Nat
  NewOffsetManagerFromClient : Outcome Nat
deriving DecidableEq, Repr

/-- The struct `Kafka` of `kafka.go`; `Closing` and `Messages` are fresh open
channels, recorded by whether they are closed. -/
structure Kafka where
  Consumer : Nat
  Partitions : List Int
  OffMgr : Nat
  ClosingClosed : Bool
  MessagesClosed : Bool
  Topic : String
  GroupName : String
deriving DecidableEq, Repr

/-- `InitKafka` (kafka.go 38-95): four fallible calls in order, the first
failure is returned; no goroutine is started here. -/
def InitKafka (cfg : KafkaConfig) (b : BrokerOutcomes) : Outcome Kafka :=
  match b.NewConsumer with
  | .err e => .err e
  | .ok consumer =>
    match b.Partitions with
    | .err e => .err e
    | .ok partitions =>
      match b.NewClient with
      | .err e => .err e
      | .ok _ =>
        match b.NewOffsetManagerFromClient with
        | .err e => .err e
        | .ok offMgr =>
          .ok { Consumer := consumer, Partitions := partitions, OffMgr := offMgr,
                ClosingClosed := false, MessagesClosed := false,
                Topic := cfg.Topic, GroupName := cfg.GroupName }

/-- A goroutine started by `ConsumeAndIndex`, with the values it is bound to. -/
inductive Goroutine where
  | errorMonitor (pc : PartitionConsumer) (offset : Int) (partition : Int)
  | closer (pc : PartitionConsumer)
  | worker (sc : ConsumeManager)
deriving DecidableEq, Repr

/-- One iteration of the loop of `ConsumeAndIndex` up to the first `go`
statement (kafka.go 100-122): the two setup calls. -/
def consumeSetup (p : PartitionSetup) : Outcome ConsumeManager :=
  match p.ManagePartition with
  | .err e => .err e
  | .ok pm =>
    match p.ConsumePartition with
    | .err e => .err e
    | .ok pc => .ok { pc := pc, pm := pm }

/-- The three `go` statements of one iteration (kafka.go 124-147). -/
def consumeSpawns (partition : Int) (sc : ConsumeManager) : List Goroutine :=
  [.errorMonitor sc.pc OffsetNewest partition, .closer sc.pc, .worker sc]

/-- Result of `ConsumeAndIndex`: the returned error, the goroutines started so
far and the number of `wg.Add(1)` calls added to the counter it was given. -/
structure ConsumeResult where
  err : Option GoError
  spawned : List Goroutine
  wg : Nat
deriving DecidableEq, Repr

/-- `ConsumeAndIndex` (kafka.go 97-151) as a loop over the partitions, carrying
the goroutines already started and the wait-group counter. -/
def ConsumeAndIndex : List PartitionSetup → List Goroutine → Nat → ConsumeResult
  | [], g, wg => { err := none, spawned := g, wg := wg }
  | p :: ps, g, wg =>
    match consumeSetup p with
    | .err e => { err := some e, spawned := g, wg := wg }
    | .ok sc => ConsumeAndIndex ps (g ++ consumeSpawns p.partition sc) (wg + 1)

/-! ## The concurrent program -/

/-- Observable events of a run, in the order they happen. The index `i` is the
position of the partition in `s.Partitions`. -/
inductive Event where
  | send (i : Nat) (m : ConsumerMessage)
  | markOffset (i : Nat) (pm : Nat) (offset : Int)
  | workerDone (i : Nat)
  | logPartitionErr (i : Nat) (partition : Int) (e : GoError)
  | asyncClose (i : Nat)
  | closeClosing
  | closeMessages
  | consumerClose
deriving DecidableEq, Repr

/-- Where the worker goroutine (kafka.go 139-147) stands. -/
inductive WorkerPC where
  | recv
  | send (m : ConsumerMessage)
  | mark (m : ConsumerMessage)
  | exited
deriving DecidableEq, Repr

/-- Where the closer goroutine (kafka.go 126-129) stands. -/
inductive CloserPC where
  | waiting
  | closing
  | done
deriving DecidableEq, Repr

/-- The goroutines of one partition and the feeds of its consumer. -/
structure Slot where
  partition : Int
  sc : ConsumeManager
  msgs : List ConsumerMessage
  errs : List (Option GoError)
  feedsClosed : Bool
  worker : WorkerPC
  closer : CloserPC
  monitorDone : Bool
deriving DecidableEq, Repr

/-- The slot created by one successful loop iteration. -/
def newSlot (partition : Int) (sc : ConsumeManager) : Slot :=
  { partition := partition, sc := sc, msgs := sc.pc.Messages, errs := sc.pc.Errors,
    feedsClosed := false, worker := .recv, closer := .waiting, monitorDone := false }

/-- Where `main` stands in lines 106-136. -/
inductive MainPC where
  | goWatch
  | consume (rest : List PartitionSetup)
  | newIndexer
  | goIndex
  | wait
  | closeMessages
  | consumerClose
  | returned
deriving DecidableEq, Repr

/-- Where `watchSigTerm` (main.go 60-73) stands. -/
inductive WatcherPC where
  | notStarted
  | started
  | waiting
  | closing
  | returned
deriving DecidableEq, Repr

/-- What the environment decides for a run of `main`: the partitions found by
`InitKafka` with the answers of their setup calls, and whether `NewIndexer` and
`k.Consumer.Close()` succeed. -/
structure RunEnv where
  partitions : List PartitionSetup
  newIndexerOk : Bool
  consumerCloseOk : Bool
deriving DecidableEq, Repr

/-- State of the process. -/
structure State where
  main : MainPC
  watcher : WatcherPC
  sigBuf : Nat
  closing : Bool
  messagesClosed : Bool
  indexer : Bool
  wg : Nat
  slots : List Slot
  trace : List Event
  panicked : Bool
  halted : Bool
deriving DecidableEq, Repr

/-- A scheduling choice: which goroutine moves, or what the environment does. -/
inductive Action where
  | main
  | watcher
  | signal
  | worker (i : Nat)
  | closer (i : Nat)
  | monitor (i : Nat)
  | closeFeeds (i : Nat)
deriving DecidableEq, Repr

/-- State when `main` reaches line 106. -/
def State.start : State :=
  { main := .goWatch, watcher := .notStarted, sigBuf := 0, closing := false,
    messagesClosed := false, indexer := false, wg := 0, slots := [], trace := [],
    panicked := false, halted := false }

/-- A run-time panic ends the process. -/
def State.goPanic (st : State) : State :=
  { st with panicked := true, halted := true }

/-- The call `logrus.Fatal` logs and exits the process. -/
def State.fatal (st : State) : State :=
  { st with halted := true }

/-- Replace slot `i`. -/
def State.setSlot (st : State) (i : Nat) (s : Slot) : State :=
  { st with slots := st.slots.set i s }

/-- One step of `main`. -/
def stepMain (cfg : RunEnv) (st : State) : State :=
  match st.main with
  | .goWatch => { st with watcher := .started, main := .consume cfg.partitions }
  | .consume [] => { st with main := .newIndexer }
  | .consume (p :: ps) =>
    match consumeSetup p with
    | .err _ => st.fatal
    | .ok sc =>
      { st with slots := st.slots ++ [newSlot p.partition sc], wg := st.wg + 1,
                main := .consume ps }
  | .newIndexer =>
    if cfg.newIndexerOk then { st with main := .goIndex } else st.fatal
  | .goIndex => { st with indexer := true, main := .wait }
  | .wait => if st.wg = 0 then { st with main := .closeMessages } else st
  | .closeMessages =>
    if st.messagesClosed then st.goPanic
    else { st with messagesClosed := true, main := .consumerClose,
                   trace := st.trace ++ [.closeMessages] }
  | .consumerClose =>
    if cfg.consumerCloseOk then
      { st with main := .returned, halted := true, trace := st.trace ++ [.consumerClose] }
    else { st with halted := true, trace := st.trace ++ [.consumerClose] }
  | .returned => st

/-- One step of `watchSigTerm`. -/
def stepWatcher (st : State) : State :=
  match st.watcher with
  | .notStarted => st
  | .started => { st with watcher := .waiting }
  | .waiting => if st.sigBuf = 0 then st else { st with sigBuf := st.sigBuf - 1, watcher := .closing }
  | .closing =>
    if st.closing then st.goPanic
    else { st with closing := true, watcher := .returned, trace := st.trace ++ [.closeClosing] }
  | .returned => st

/-- Delivery of SIGTERM or an interrupt to the process: before `signal.Notify`
the default action ends the process; afterwards the signal goes into the
one-place channel `signals`, and is dropped when that is full. -/
def stepSignal (st : State) : State :=
  match st.watcher with
  | .notStarted => { st with halted := true }
  | .started => { st with halted := true }
  | _ => if st.sigBuf = 0 then { st with sigBuf := 1 } else st

/-- One step of the worker of slot `i` (kafka.go 139-147). -/
def stepWorker (st : State) (i : Nat) : State :=
  match st.slots[i]? with
  | none => st
  | some s =>
    match s.worker with
    | .recv =>
      match s.msgs with
      | m :: rest => st.setSlot i { s with msgs := rest, worker := .send m }
      | [] =>
        if s.feedsClosed then
          if st.wg = 0 then st.goPanic
          else { st with wg := st.wg - 1, slots := st.slots.set i { s with worker := .exited },
                         trace := st.trace ++ [.workerDone i] }
        else st
    | .send m =>
      if st.messagesClosed then st.goPanic
      else if st.indexer then
        { st with slots := st.slots.set i { s with worker := .mark m },
                  trace := st.trace ++ [.send i m] }
      else st
    | .mark m =>
      { st with slots := st.slots.set i { s with worker := .recv },
                trace := st.trace ++ [.markOffset i s.sc.pm.id (checkpointOf m)] }
    | .exited => st

/-- One step of the closer of slot `i` (kafka.go 126-129). -/
def stepCloser (st : State) (i : Nat) : State :=
  match st.slots[i]? with
  | none => st
  | some s =>
    match s.closer with
    | .waiting => if st.closing then st.setSlot i { s with closer := .closing } else st
    | .closing =>
      { st with slots := st.slots.set i { s with closer := .done },
                trace := st.trace ++ [.asyncClose i] }
    | .done => st

/-- One step of `HandlePartitionConsumerErrors` for slot `i` (kafka.go 153-163). -/
def stepMonitor (st : State) (i : Nat) : State :=
  match st.slots[i]? with
  | none => st
  | some s =>
    if s.monitorDone then st
    else
      match s.errs with
      | some e :: rest =>
        { st with slots := st.slots.set i { s with errs := rest },
                  trace := st.trace ++ [.logPartitionErr i s.partition e] }
      | none :: rest => st.setSlot i { s with errs := rest }
      | [] => if s.feedsClosed then st.setSlot i { s with monitorDone := true } else st

/-- The partition consumer of slot `i` closes its `Messages()` and `Errors()`
channels (after `AsyncClose`, or on its own). -/
def stepCloseFeeds (st : State) (i : Nat) : State :=
  match st.slots[i]? with
  | none => st
  | some s => st.setSlot i { s with feedsClosed := true }

/-- One step of the process; nothing moves once the process has ended. -/
def step (cfg : RunEnv) (st : State) (a : Action) : State :=
  if st.halted then st
  else
    match a with
    | .main => stepMain cfg st
    | .watcher => stepWatcher st
    | .signal => stepSignal st
    | .worker i => stepWorker st i
    | .closer i => stepCloser st i
    | .monitor i => stepMonitor st i
    | .closeFeeds i => stepCloseFeeds st i

/-- Run a schedule from a state. -/
def runFrom (cfg : RunEnv) (st : State) (sched : List Action) : State :=
  sched.foldl (step cfg) st

/-- Run a schedule from line 106 of `main`. -/
def run (cfg : RunEnv) (sched : List Action) : State :=
  runFrom cfg State.start sched

/-- The message of an event when it is a completed send by slot `i`. -/
def Event.sentBy (i : Nat) : Event → Option ConsumerMessage
  | .send j m => if j = i then some m else none
  | _ => none

/-- The offset of an event when it is a checkpoint by slot `i`. -/
def Event.markedBy (i : Nat) : Event → Option Int
  | .markOffset j _ o => if j = i then some o else none
  | _ => none

/-- The sender and message of an event when it is a completed send. -/
def Event.delivery : Event → Option (Nat × ConsumerMessage)
  | .send j m => some (j, m)
  | _ => none

/-- Messages that slot `i` has handed to the bus, in order. -/
def sendsOf (i : Nat) (t : List Event) : List ConsumerMessage :=
  t.filterMap (Event.sentBy i)

/-- Offsets that slot `i` has marked, in order. -/
def marksOf (i : Nat) (t : List Event) : List Int :=
  t.filterMap (Event.markedBy i)

/-- Everything received from the bus, tagged with the sending slot, in order. -/
def delivered (t : List Event) : List (Nat × ConsumerMessage) :=
  t.filterMap Event.delivery

/-- Whether an event is a send onto the bus. -/
def Event.isSend : Event → Bool
  | .send _ _ => true
  | _ => false

/-- The message a worker holds between its pull and its completed send,
followed by what it has not pulled yet. -/
def Slot.pending (s : Slot) : List ConsumerMessage :=
  match s.worker with
  | .send m => m :: s.msgs
  | _ => s.msgs

/-- The checkpoint a worker still owes for a message already sent. -/
def Slot.owedMark (s : Slot) : List Int :=
  match s.worker with
  | .mark m => [checkpointOf m]
  | _ => []

/-! ## Invariants of a run -/

/-- What ties the state of slot `i` to the events it has produced. -/
structure SlotOK (i : Nat) (s : Slot) (t : List Event) : Prop where
  sends : sendsOf i t ++ s.pending = s.sc.pc.Messages
  marks : marksOf i t ++ s.owedMark = (sendsOf i t).map checkpointOf
  exitedEmpty : s.worker = .exited → s.msgs = []
  markSent : ∀ m, s.worker = .mark m → Event.send i m ∈ t
  exitedDone : s.worker = .exited → Event.workerDone i ∈ t

/-- Every slot is consistent with the trace, and the trace names existing slots only. -/
structure DataInv (st : State) : Prop where
  slot : ∀ i s, st.slots[i]? = some s → SlotOK i s st.trace
  inRange : ∀ e ∈ st.trace, ∀ i, (e.sentBy i ≠ none ∨ e.markedBy i ≠ none) → i < st.slots.length

/-- Whether the worker of a slot has not yet left its loop. -/
def Slot.running (s : Slot) : Bool :=
  match s.worker with
  | .exited => false
  | _ => true

/-- Number of loop iterations `ConsumeAndIndex` still has to make. -/
def MainPC.remaining (cfg : RunEnv) : MainPC → Nat
  | .goWatch => cfg.partitions.length
  | .consume rest => rest.length
  | _ => 0

/-- Whether `main` has passed `wg.Wait()`. -/
def MainPC.pastWait : MainPC → Bool
  | .closeMessages => true
  | .consumerClose => true
  | .returned => true
  | _ => false

/-- Whether `main` has passed `close(k.Messages)`. -/
def MainPC.pastClose : MainPC → Bool
  | .consumerClose => true
  | .returned => true
  | _ => false

/-- Control invariants: counters, channel states and program counters agree. -/
structure CtrlInv (cfg : RunEnv) (st : State) : Prop where
  noPanic : st.panicked = false
  wgCount : st.wg = st.slots.countP Slot.running
  pastWait : st.main.pastWait = true → st.wg = 0
  closedMain : st.messagesClosed = st.main.pastClose
  closingWatcher : st.closing = true ↔ st.watcher = .returned
  cntMessages : st.trace.count .closeMessages = if st.messagesClosed then 1 else 0
  cntClosing : st.trace.count .closeClosing = if st.closing then 1 else 0
  consumerClosed : Event.consumerClose ∈ st.trace → st.halted = true ∧ st.messagesClosed = true
  returned : st.main = .returned → Event.consumerClose ∈ st.trace
  sigBuf : st.sigBuf ≤ 1
  slotsLen : st.slots.length + st.main.remaining cfg = cfg.partitions.length
  watcherStart : st.main = .goWatch → st.watcher = .notStarted

/-- What holds of the state in which a step appends the event. -/
def Event.guard (st : State) : Event → Prop
  | .send i m => ∃ s, st.slots[i]? = some s ∧ s.worker = .send m ∧ st.messagesClosed = false
  | .markOffset i pm o =>
    ∃ s m, st.slots[i]? = some s ∧ s.worker = .mark m ∧ o = checkpointOf m ∧ pm = s.sc.pm.id
  | .workerDone i =>
    ∃ s, st.slots[i]? = some s ∧ s.worker = .recv ∧ s.msgs = [] ∧ s.feedsClosed = true
  | .logPartitionErr i p e =>
    ∃ s rest, st.slots[i]? = some s ∧ p = s.partition ∧ s.errs = some e :: rest
  | .asyncClose i => ∃ s, st.slots[i]? = some s ∧ s.closer = .closing
  | .closeClosing => st.watcher = .closing
  | .closeMessages => st.main = .closeMessages
  | .consumerClose => st.main = .consumerClose

/-- Order of events in the trace. -/
structure OrderInv (st : State) : Prop where
  markAfterSend : ∀ pre post i pm o, st.trace = pre ++ Event.markOffset i pm o :: post →
    ∃ m, Event.send i m ∈ pre ∧ o = checkpointOf m
  closeAfterWorkers : ∀ pre post, st.trace = pre ++ Event.closeMessages :: post →
    (∀ e ∈ post, e.isSend = false) ∧ (∀ i, i < st.slots.length → Event.workerDone i ∈ pre)
  consumerAfterClose : ∀ pre post, st.trace = pre ++ Event.consumerClose :: post →
    Event.closeMessages ∈ pre
  marksFollow : ∀ pre post i, st.trace = pre ++ post →
    ∃ rest, marksOf i pre ++ rest = (sendsOf i pre).map checkpointOf

/-- Slot `i` is bound to what the setup calls answered for the `i`-th partition. -/
structure BindInv (cfg : RunEnv) (st : State) : Prop where
  rest : ∀ r, st.main = .consume r → r = cfg.partitions.drop st.slots.length
  bound : ∀ (i : Nat) (s : Slot), st.slots[i]? = some s →
    ∃ p, cfg.partitions[i]? = some p ∧ consumeSetup p = .ok s.sc ∧ s.partition = p.partition
  fresh : st.main = .goWatch → st.slots = []

/-! ## The scenario of three partitions -/

/-- A message with an empty payload. -/
def msgAt (partition offset : Int) : ConsumerMessage :=
  { Value := [], Offset := offset, Partition := partition }

/-- A partition whose setup calls succeed and whose consumer yields the given offsets. -/
def okSetup (id : Nat) (partition : Int) (offsets : List Int) : PartitionSetup :=
  { partition := partition, ManagePartition := .ok { id := id },
    ConsumePartition := .ok { id := id, Messages := offsets.map (msgAt partition), Errors := [] } }

/-- Three partitions yielding offsets 10, 11, 12, offset 5, and nothing. -/
def threeCfg : RunEnv :=
  { partitions := [okSetup 0 1 [10, 11, 12], okSetup 1 2 [5], okSetup 2 3 []],
    newIndexerOk := true, consumerCloseOk := true }

/-- Start-up of `main` for three partitions up to `wg.Wait()`, with the watcher registered. -/
def threeStartup : List Action :=
  [.main, .watcher, .main, .main, .main, .main, .main, .main]

/-- An interleaving in which the three workers deliver everything, the signal is
delivered twice, the feeds close and `main` runs to its end. -/
def threeSchedule : List Action :=
  threeStartup ++
  [.worker 0, .worker 1, .worker 0, .worker 1, .worker 0, .worker 1, .signal, .watcher, .signal,
   .watcher, .closer 0, .closer 1, .closer 2, .closer 0, .closer 1, .closer 2,
   .worker 0, .worker 0, .worker 0, .worker 0, .worker 0, .worker 0, .worker 1,
   .closeFeeds 0, .closeFeeds 1, .closeFeeds 2, .worker 2, .worker 1, .worker 0,
   .main, .main, .main]

/-- The first slot at the end of the three-partition run. -/
def threeSlot0 : Slot :=
  { partition := 1,
    sc := { pc := { id := 0, Messages := [msgAt 1 10, msgAt 1 11, msgAt 1 12], Errors := [] },
            pm := { id := 0 } },
    msgs := [], errs := [], feedsClosed := true, worker := .exited, closer := .done,
    monitorDone := false }

/-! ## Start-up -/

/-- The goroutines of the partitions `ps` when their setup calls returned `scs`:
for each partition its error monitor, closer and worker. -/
def spawnsFor (ps : List PartitionSetup) (scs : List ConsumeManager) : List Goroutine :=
  (List.zipWith (fun p sc => consumeSpawns p.partition sc) ps scs).flatten

/-- Whether a goroutine is a partition worker. -/
def Goroutine.isWorker : Goroutine → Bool
  | .worker _ => true
  | _ => false

/-- Whether a goroutine is an error monitor. -/
def Goroutine.isMonitor : Goroutine → Bool
  | .errorMonitor _ _ _ => true
  | _ => false

/-- Lines 98-114 of `main`: `InitKafka`, and `ConsumeAndIndex` on the partitions it
found when it succeeded; `answers` gives what the two setup calls return for a
partition id. An error of `InitKafka` ends the process before anything is started. -/
def startup (kc : KafkaConfig) (b : BrokerOutcomes)
    (answers : Int → Outcome PartitionOffsetManager × Outcome PartitionConsumer) : ConsumeResult :=
  match InitKafka kc b with
  | .err e => { err := some e, spawned := [], wg := 0 }
  | .ok k =>
    ConsumeAndIndex
      (k.Partitions.map (fun p =>
        { partition := p, ManagePartition := (answers p).1, ConsumePartition := (answers p).2 }))
      [] 0

/-- Two partitions: the setup of the first succeeds, `ManagePartition` fails for the second. -/
def failSecond : List PartitionSetup :=
  [okSetup 0 0 [],
   { partition := 1, ManagePartition := .err "manage", ConsumePartition := .err "unused" }]

/-- The partition and error of an event when it is an error report for slot `i`. -/
def Event.loggedBy (i : Nat) : Event → Option (Int × GoError)
  | .logPartitionErr j p e => if j = i then some (p, e) else none
  | _ => none

/-- Error reports for slot `i`, in order. -/
def logsOf (i : Nat) (t : List Event) : List (Int × GoError) :=
  t.filterMap (Event.loggedBy i)

/-- The reports that a list of values from the `Errors()` feed gives rise to: one
for each non-nil error, labelled with the partition. -/
def reportsOf (partition : Int) (errs : List (Option GoError)) : List (Int × GoError) :=
  (errs.filterMap id).map (fun e => (partition, e))

/-- Error reports come from the `Errors()` feed of the slot's own consumer. -/
structure LogInv (st : State) : Prop where
  logs : ∀ (i : Nat) (s : Slot), st.slots[i]? = some s →
    logsOf i st.trace ++ reportsOf s.partition s.errs = reportsOf s.partition s.sc.pc.Errors
  logRange : ∀ e ∈ st.trace, ∀ i, e.loggedBy i ≠ none → i < st.slots.length

/-- The worker of slot `i` has left its loop. -/
def ExitedAt (i : Nat) (st : State) : Prop :=
  ∃ s, st.slots[i]? = some s ∧ s.worker = .exited

/-- No partitions; the indexer and the final close succeed. -/
def emptyCfg : RunEnv := { partitions := [], newIndexerOk := true, consumerCloseOk := true }

/-- One partition whose consumer yields no message and no error. -/
def silentCfg : RunEnv :=
  { partitions := [okSetup 0 7 []], newIndexerOk := true, consumerCloseOk := true }

/-- Start-up for one partition, then the feeds of its consumer close although no
signal was delivered; worker and error monitor run until they stop. -/
def silentSchedule : List Action :=
  [.main, .watcher, .main, .main, .main, .main, .closeFeeds 0, .worker 0, .monitor 0,
   .worker 0, .monitor 0, .closer 0]

/-- The slot of the one-partition run when its feeds have just closed. -/
def silentSlot : Slot :=
  { newSlot 7 { pc := { id := 0, Messages := [], Errors := [] }, pm := { id := 0 } } with
    feedsClosed := true }

/-- Number of steps the worker of a slot needs to leave its loop once its stream
is closed and the bus is being read. -/
def Slot.stepsLeft (s : Slot) : Nat :=
  3 * s.msgs.length +
    match s.worker with
    | .recv => 1
    | .send _ => 3
    | .mark _ => 2
    | .exited => 0

/-- The state as the pipeline sees it: everything except the content of the
channel `signals`, which is private to `watchSigTerm`. -/
def State.pipeline (st : State) : State := { st with sigBuf := 0 }

/-- Keep the first delivery of the signal in a schedule and drop the later ones;
`seen` tells whether a signal has been delivered already. -/
def firstSignalOnly : Bool → List Action → List Action
  | _, [] => []
  | seen, a :: t =>
    if a = .signal then
      if seen then firstSignalOnly true t else a :: firstSignalOnly true t
    else a :: firstSignalOnly seen t

/-- No signal has been delivered yet. -/
def Unfired (st : State) : Prop :=
  st.sigBuf = 0 ∧ (st.watcher = .notStarted ∨ st.watcher = .started ∨ st.watcher = .waiting)

/-- A signal has been delivered; `st` may have received more of them than `st'`. -/
def Absorbed (st st' : State) : Prop :=
  st.pipeline = st'.pipeline ∧
    (st.halted = true ∨ (st.watcher = .waiting ∧ st.sigBuf = 1 ∧ st'.sigBuf = 1) ∨
      st.watcher = .closing ∨ st.watcher = .returned)

/-! ## The indexer (`elastic.go`) -/

/-- The fields of goflow's `FlowMessage` that `NewFlowDoc` reads. Integer fields
hold values of their Go type; byte slices are lists of bytes. -/
structure FlowMessage where
  Typ : Int
  TimeReceived : Nat
  SequenceNum : Nat
  SamplingRate : Nat
  SamplerAddress : List Nat
  TimeFlowStart : Nat
  TimeFlowEnd : Nat
  Bytes : Nat
  Packets : Nat
  SrcAddr : List Nat
  DstAddr : List Nat
  Etype : Nat
  Proto : Nat
  SrcPort : Nat
  DstPort : Nat
  OutIf : Nat
  SrcMac : Nat
  DstMac : Nat
  IPTTL : Nat
  TCPFlags : Nat
  IPv6FlowLabel : Nat
deriving DecidableEq, Repr

/-- The struct `Location`; a `float64` is carried as its bit pattern. -/
structure Location where
  Lat : Nat
  Lon : Nat
deriving DecidableEq, Repr

/-- The struct `FlowRecord` of `elastic.go`. -/
structure FlowRecord where
  Typ : Int
  TimeReceived : Nat
  SequenceNum : Nat
  TimeFlowStart : Nat
  SamplingRate : Nat
  SamplerAddress : String
  TimeFlowEnd : Nat
  Bytes : Nat
  Packets : Nat
  SrcAddr : String
  DstAddr : String
  Etype : Nat
  Proto : Nat
  SrcPort : Nat
  DstPort : Nat
  OutIf : Nat
  SrcMac : String
  DstMac : String
  IPTTL : Nat
  TCPFlags : Nat
  IPv6FlowLabel : Nat
  SrcDevice : String
  DstDevice : String
  SrcLocation : Location
  DstLocation : Location
  SrcCity : String
  DstCity : String
  SrcCountry : String
  DstCountry : String
  SrcAS : Nat
  DstAS : Nat
  SrcOrg : String
  DstOrg : String
  PortName : String
  ProtoName : String
  EtypeName : String
deriving DecidableEq, Repr

/-- The struct `ESCfg`; a Go map from string to string is its lookup function,
which gives the empty string for a missing key. -/
structure ESCfg where
  Address : String
  Port : String
  IPDBPath : String
  ASNDBPath : String
  MacTable : String → String
  GeoIPEnabled : Bool
  IndexName : String
  PortTable : String → String
  ProtocolTable : String → String

/-- What `geoip2.Reader.City` returns, as far as it is read; a nil `Names` map is `none`. -/
structure CityRecord where
  Latitude : Nat
  Longitude : Nat
  CountryNames : Option (String → String)
  CityNames : Option (String → String)

/-- What `geoip2.Reader.ASN` returns. -/
structure ASNRecord where
  AutonomousSystemNumber : Nat
  AutonomousSystemOrganization : String

/-- The struct `ESIndexer`: its configuration and the operations of the clients and
libraries it calls. `IndexDo n doc` is the error, if any, of the `n`-th write to the
sink. -/
structure ESIndexer where
  Cfg : ESCfg
  Unmarshal : List Nat → Outcome FlowMessage
  IPString : List Nat → String
  City : List Nat → Outcome CityRecord
  ASN : List Nat → Outcome ASNRecord
  IndexDo : Nat → FlowRecord → Option GoError

/-- `fmt.Sprintf("%x", n)` for an unsigned integer. -/
def sprintHex (n : Nat) : String := String.mk (Nat.toDigits 16 n)

/-- `fmt.Sprint(n)` for an unsigned integer. -/
def sprint (n : Nat) : String := toString n

/-- Lookup in a Go map that may be nil. -/
def lookupName (names : Option (String → String)) (k : String) : String :=
  match names with
  | none => ""
  | some f => f k

/-- `NewFlowDoc` (elastic.go 129-161). -/
def ESIndexer.NewFlowDoc (e : ESIndexer) (msg : FlowMessage) : FlowRecord :=
  let srcMAC := sprintHex msg.SrcMac
  let dstMAC := sprintHex msg.DstMac
  { Typ := msg.Typ
    TimeReceived := msg.TimeReceived
    SequenceNum := msg.SequenceNum
    SamplingRate := msg.SamplingRate
    SamplerAddress := e.IPString msg.SamplerAddress
    TimeFlowStart := msg.TimeFlowStart
    TimeFlowEnd := msg.TimeFlowEnd
    Bytes := msg.Bytes
    Packets := msg.Packets
    SrcAddr := e.IPString msg.SrcAddr
    DstAddr := e.IPString msg.DstAddr
    Etype := msg.Etype
    Proto := msg.Proto
    SrcPort := msg.SrcPort
    DstPort := msg.DstPort
    OutIf := msg.OutIf
    SrcMac := srcMAC
    DstMac := dstMAC
    IPTTL := msg.IPTTL
    TCPFlags := msg.TCPFlags
    IPv6FlowLabel := msg.IPv6FlowLabel
    SrcDevice := e.Cfg.MacTable srcMAC
    DstDevice := e.Cfg.MacTable dstMAC
    SrcLocation := { Lat := 0, Lon := 0 }
    DstLocation := { Lat := 0, Lon := 0 }
    SrcCity := ""
    DstCity := ""
    SrcCountry := ""
    DstCountry := ""
    SrcAS := 0
    DstAS := 0
    SrcOrg := ""
    DstOrg := ""
    PortName := e.Cfg.PortTable (sprint msg.DstPort)
    ProtoName := e.Cfg.ProtocolTable (sprint msg.Proto)
    EtypeName := "" }

/-- `SetLocationData` (elastic.go 163-220): each failed lookup returns with what has
been set so far. -/
def ESIndexer.SetLocationData (e : ESIndexer) (msg : FlowMessage) (f : FlowRecord) : FlowRecord :=
  match e.City msg.SrcAddr with
  | .err _ => f
  | .ok srcRecord =>
    match e.City msg.DstAddr with
    | .err _ => f
    | .ok dstRecord =>
      let f := { f with
        SrcLocation := { Lat := srcRecord.Latitude, Lon := srcRecord.Longitude }
        DstLocation := { Lat := dstRecord.Latitude, Lon := dstRecord.Longitude } }
      let f := if srcRecord.CountryNames.isSome then
          { f with SrcCountry := lookupName srcRecord.CountryNames "en"
                   DstCountry := lookupName dstRecord.CountryNames "en" }
        else f
      let f := if srcRecord.CityNames.isSome then
          { f with SrcCity := lookupName srcRecord.CityNames "en"
                   DstCity := lookupName dstRecord.CityNames "en" }
        else f
      match e.ASN msg.SrcAddr with
      | .err _ => f
      | .ok srcASRecord =>
        let f := { f with SrcAS := srcASRecord.AutonomousSystemNumber
                          SrcOrg := srcASRecord.AutonomousSystemOrganization }
        match e.ASN msg.DstAddr with
        | .err _ => f
        | .ok dstASRecord =>
          { f with DstAS := dstASRecord.AutonomousSystemNumber
                   DstOrg := dstASRecord.AutonomousSystemOrganization }

/-- What `Index` does, in order. -/
inductive IndexEvent where
  | logUnmarshalErr (e : GoError)
  | submit (doc : FlowRecord)
  | logIndexErr (e : GoError)
  | clientStop
deriving DecidableEq, Repr

/-- The body of the loop of `Index` after a successful decode (elastic.go 238-244):
the document handed to the sink. -/
def ESIndexer.makeDoc (e : ESIndexer) (sflowMsg : FlowMessage) : FlowRecord :=
  let doc := e.NewFlowDoc sflowMsg
  let doc := if e.Cfg.GeoIPEnabled then e.SetLocationData sflowMsg doc else doc
  { doc with TimeFlowStart := wrapUint64 (doc.TimeFlowStart * 1000) }

/-- The loop of `Index` (elastic.go 226-257) over the messages received from the bus;
`n` counts the writes to the sink made so far. -/
def ESIndexer.indexLoop (e : ESIndexer) : List ConsumerMessage → Nat → List IndexEvent
  | [], _ => []
  | kafkaMsg :: rest, n =>
    match e.Unmarshal kafkaMsg.Value with
    | .err err => .logUnmarshalErr err :: e.indexLoop rest n
    | .ok sflowMsg =>
      let doc := e.makeDoc sflowMsg
      match e.IndexDo n doc with
      | some err => .submit doc :: .logIndexErr err :: e.indexLoop rest (n + 1)
      | none => .submit doc :: e.indexLoop rest (n + 1)

/-- `Index` (elastic.go 222-258): the loop until the bus is closed, then the deferred
`Client.Stop()`. -/
def ESIndexer.Index (e : ESIndexer) (msgs : List ConsumerMessage) : List IndexEvent :=
  e.indexLoop msgs 0 ++ [.clientStop]

/-- The documents written to the sink, in order. -/
def submitted (evs : List IndexEvent) : List FlowRecord :=
  evs.filterMap (fun ev => match ev with | .submit doc => some doc | _ => none)

/-- The decoded payload of a message, when it decodes. -/
def ESIndexer.decoded (e : ESIndexer) (m : ConsumerMessage) : Option FlowMessage :=
  match e.Unmarshal m.Value with
  | .ok sflowMsg => some sflowMsg
  | .err _ => none

/-- The decode errors logged, in order. -/
def unmarshalErrs (evs : List IndexEvent) : List GoError :=
  evs.filterMap (fun ev => match ev with | .logUnmarshalErr err => some err | _ => none)

/-- A flow message with all fields zero except `TimeFlowStart`. -/
def flowAt (t : Nat) : FlowMessage :=
  { Typ := 0, TimeReceived := 0, SequenceNum := 0, SamplingRate := 0, SamplerAddress := [],
    TimeFlowStart := t, TimeFlowEnd := 0, Bytes := 0, Packets := 0, SrcAddr := [], DstAddr := [],
    Etype := 0, Proto := 0, SrcPort := 0, DstPort := 0, OutIf := 0, SrcMac := 0, DstMac := 0,
    IPTTL := 0, TCPFlags := 0, IPv6FlowLabel := 0 }

/-- An indexer whose decoder fails on the empty payload and otherwise takes the
first element of the payload as `TimeFlowStart`, and whose first sink write fails. -/
def demoIndexer : ESIndexer :=
  { Cfg := { Address := "", Port := "", IPDBPath := "", ASNDBPath := "", MacTable := fun _ => "",
             GeoIPEnabled := false, IndexName := "", PortTable := fun _ => "",
             ProtocolTable := fun _ => "" }
    Unmarshal := fun v => match v with
      | [] => .err "empty"
      | t :: _ => .ok (flowAt t)
    IPString := fun _ => ""
    City := fun _ => .err "no db"
    ASN := fun _ => .err "no db"
    IndexDo := fun n _ => if n = 0 then some "down" else none }

/-- Three messages from the bus: the second does not decode, the third has the
largest `uint64` as start time. -/
def demoMsgs : List ConsumerMessage :=
  [{ Value := [5], Offset := 0, Partition := 0 }, { Value := [], Offset := 1, Partition := 0 },
   { Value := [18446744073709551615], Offset := 2, Partition := 0 }]

/-! ## Theorems -/

/-! ### Runs -/

theorem runFrom_append (cfg : RunEnv) (st : State) (a b : List Action) :
    runFrom cfg st (a ++ b) = runFrom cfg (runFrom cfg st a) b := by
  simp [runFrom, List.foldl_append]

theorem run_append (cfg : RunEnv) (a b : List Action) :
    run cfg (a ++ b) = runFrom cfg (run cfg a) b := by
  simp [run, runFrom_append]

theorem step_halted (cfg : RunEnv) {st : State} (h : st.halted = true) (a : Action) :
    step cfg st a = st := by
  simp [step, h]

theorem runFrom_halted (cfg : RunEnv) (sched : List Action) {st : State}
    (h : st.halted = true) : runFrom cfg st sched = st := by
  induction sched with
  | nil => rfl
  | cons a t ih =>
    rw [runFrom, List.foldl_cons, step_halted cfg h]
    exact ih

theorem sendsOf_append (i : Nat) (a b : List Event) :
    sendsOf i (a ++ b) = sendsOf i a ++ sendsOf i b := by
  simp [sendsOf]

theorem marksOf_append (i : Nat) (a b : List Event) :
    marksOf i (a ++ b) = marksOf i a ++ marksOf i b := by
  simp [marksOf]

theorem delivered_append (a b : List Event) :
    delivered (a ++ b) = delivered a ++ delivered b := by
  simp [delivered]

theorem SlotOK.congr {i : Nat} {s s' : Slot} {t : List Event} (h : SlotOK i s t)
    (hw : s'.worker = s.worker) (hm : s'.msgs = s.msgs) (hs : s'.sc = s.sc) : SlotOK i s' t := by
  have hp : s'.pending = s.pending := by simp [Slot.pending, hw, hm]
  have ho : s'.owedMark = s.owedMark := by simp [Slot.owedMark, hw]
  exact ⟨by rw [hp, hs]; exact h.sends, by rw [ho]; exact h.marks,
    by rw [hw, hm]; exact h.exitedEmpty, by rw [hw]; exact h.markSent, by rw [hw]; exact h.exitedDone⟩

theorem SlotOK.emits {i : Nat} {s : Slot} {t : List Event} (h : SlotOK i s t) (evs : List Event)
    (h1 : ∀ e ∈ evs, e.sentBy i = none ∧ e.markedBy i = none) : SlotOK i s (t ++ evs) := by
  have hs : sendsOf i evs = [] := by
    simp only [sendsOf, List.filterMap_eq_nil_iff]; exact fun e he => (h1 e he).1
  have hm : marksOf i evs = [] := by
    simp only [marksOf, List.filterMap_eq_nil_iff]; exact fun e he => (h1 e he).2
  refine ⟨?_, ?_, h.exitedEmpty, ?_, ?_⟩
  · rw [sendsOf_append, hs]; simpa using h.sends
  · rw [sendsOf_append, marksOf_append, hs, hm]; simpa using h.marks
  · intro m hm; exact List.mem_append_left _ (h.markSent m hm)
  · intro hm; exact List.mem_append_left _ (h.exitedDone hm)

theorem DataInv.same {st st' : State} (h : DataInv st) (hs : st'.slots = st.slots)
    (ht : st'.trace = st.trace) : DataInv st' := by
  constructor
  · rw [hs, ht]; exact h.slot
  · rw [hs, ht]; exact h.inRange

theorem DataInv.global {st st' : State} (h : DataInv st) (e : Event) (hs : st'.slots = st.slots)
    (ht : st'.trace = st.trace ++ [e]) (he : ∀ i, e.sentBy i = none ∧ e.markedBy i = none) :
    DataInv st' := by
  constructor
  · rw [hs, ht]; intro i s hi
    exact (h.slot i s hi).emits [e] (by simpa using he i)
  · rw [hs, ht]; intro x hx i hi
    rcases List.mem_append.1 hx with hx | hx
    · exact h.inRange x hx i hi
    · simp only [List.mem_singleton] at hx; subst hx
      rcases hi with hi | hi
      · exact absurd (he i).1 hi
      · exact absurd (he i).2 hi

theorem DataInv.setSlot {st st' : State} (h : DataInv st) (i : Nat) (s s' : Slot) (evs : List Event)
    (hi : st.slots[i]? = some s) (hs : st'.slots = st.slots.set i s')
    (ht : st'.trace = st.trace ++ evs) (hok : SlotOK i s' (st.trace ++ evs))
    (he : ∀ e ∈ evs, ∀ j, j ≠ i → e.sentBy j = none ∧ e.markedBy j = none) : DataInv st' := by
  have hlt : i < st.slots.length := by
    rcases List.getElem?_eq_some_iff.1 hi with ⟨hlt, _⟩; exact hlt
  constructor
  · rw [hs, ht]; intro j sj hj
    by_cases hji : j = i
    · subst hji
      rw [List.getElem?_set_self hlt] at hj
      cases hj; exact hok
    · rw [List.getElem?_set_ne (Ne.symm hji)] at hj
      exact (h.slot j sj hj).emits evs (fun e he' => he e he' j hji)
  · rw [hs, ht]; intro x hx j hj
    rw [List.length_set]
    rcases List.mem_append.1 hx with hx | hx
    · exact h.inRange x hx j hj
    · by_cases hji : j = i
      · subst hji; exact hlt
      · have := he x hx j hji
        rcases hj with hj | hj
        · exact absurd this.1 hj
        · exact absurd this.2 hj

theorem sendsOf_eq_nil_of_inRange {st : State} (h : DataInv st) (i : Nat)
    (hi : st.slots.length ≤ i) : sendsOf i st.trace = [] ∧ marksOf i st.trace = [] := by
  constructor
  · simp only [sendsOf, List.filterMap_eq_nil_iff]
    intro e he
    by_contra hne
    exact absurd (h.inRange e he i (Or.inl hne)) (by omega)
  · simp only [marksOf, List.filterMap_eq_nil_iff]
    intro e he
    by_contra hne
    exact absurd (h.inRange e he i (Or.inr hne)) (by omega)

theorem DataInv.addSlot {st st' : State} (h : DataInv st) (p : Int) (sc : ConsumeManager)
    (hs : st'.slots = st.slots ++ [newSlot p sc]) (ht : st'.trace = st.trace) : DataInv st' := by
  constructor
  · rw [hs, ht]; intro j sj hj
    rcases Nat.lt_trichotomy j st.slots.length with hlt | heq | hgt
    · rw [List.getElem?_append_left hlt] at hj
      exact h.slot j sj hj
    · subst heq
      rw [List.getElem?_append_right (le_refl _)] at hj
      simp only [Nat.sub_self, List.getElem?_cons_zero, Option.some.injEq] at hj
      subst hj
      obtain ⟨h1, h2⟩ := sendsOf_eq_nil_of_inRange h st.slots.length (le_refl _)
      refine ⟨?_, ?_, ?_, ?_, ?_⟩ <;> simp [h1, h2, newSlot, Slot.pending, Slot.owedMark]
    · rw [List.getElem?_eq_none (by simp; omega)] at hj
      cases hj
  · rw [hs, ht]; intro x hx j hj
    have := h.inRange x hx j hj
    simp; omega

theorem DataInv.data_stepMain (cfg : RunEnv) {st : State} (h : DataInv st) : DataInv (stepMain cfg st) := by
  unfold Kafkasflowes.stepMain
  split
  · exact h.same rfl rfl
  · exact h.same rfl rfl
  · split
    · exact h.same rfl rfl
    · exact h.addSlot _ _ rfl rfl
  · split
    · exact h.same rfl rfl
    · exact h.same rfl rfl
  · exact h.same rfl rfl
  · split
    · exact h.same rfl rfl
    · exact h
  · split
    · exact h.same rfl rfl
    · exact h.global .closeMessages rfl rfl (fun i => ⟨rfl, rfl⟩)
  · split
    · exact h.global .consumerClose rfl rfl (fun i => ⟨rfl, rfl⟩)
    · exact h.global .consumerClose rfl rfl (fun i => ⟨rfl, rfl⟩)
  · exact h

theorem DataInv.data_stepWatcher {st : State} (h : DataInv st) : DataInv (stepWatcher st) := by
  unfold Kafkasflowes.stepWatcher
  split
  · exact h
  · exact h.same rfl rfl
  · split
    · exact h
    · exact h.same rfl rfl
  · split
    · exact h.same rfl rfl
    · exact h.global .closeClosing rfl rfl (fun i => ⟨rfl, rfl⟩)
  · exact h

theorem DataInv.data_stepSignal {st : State} (h : DataInv st) : DataInv (stepSignal st) := by
  unfold Kafkasflowes.stepSignal
  split
  · exact h.same rfl rfl
  · exact h.same rfl rfl
  · split
    · exact h.same rfl rfl
    · exact h

theorem DataInv.data_stepWorker {st : State} (h : DataInv st) (i : Nat) : DataInv (stepWorker st i) := by
  unfold Kafkasflowes.stepWorker
  split
  · exact h
  · rename_i s hs
    have ok := h.slot i s hs
    split
    · rename_i hw
      split
      · rename_i m rest hm
        refine h.setSlot i s _ [] hs rfl (by simp [State.setSlot]) ?_ (by simp)
        have h1 := ok.sends
        have h2 := ok.marks
        simp only [Slot.pending, Slot.owedMark, hw, hm] at h1 h2
        refine ⟨?_, ?_, ?_, ?_, ?_⟩ <;> simp [Slot.pending, Slot.owedMark, h1, h2]
      · rename_i hm
        split
        · split
          · exact h.same rfl rfl
          · refine h.setSlot i s _ [.workerDone i] hs rfl rfl ?_ (by simp [Event.sentBy, Event.markedBy])
            have ok' := ok.emits [.workerDone i] (by simp [Event.sentBy, Event.markedBy])
            have h1 := ok'.sends
            have h2 := ok'.marks
            simp only [Slot.pending, Slot.owedMark, hw, hm] at h1 h2
            refine ⟨?_, ?_, ?_, ?_, ?_⟩ <;> simp [Slot.pending, Slot.owedMark, h1, h2, hm]
        · exact h
    · rename_i m hw
      split
      · exact h.same rfl rfl
      · split
        · refine h.setSlot i s _ [.send i m] hs rfl rfl ?_ ?_
          · have h1 := ok.sends
            have h2 := ok.marks
            simp only [Slot.pending, Slot.owedMark, hw] at h1 h2
            refine ⟨?_, ?_, ?_, ?_, ?_⟩
            · simpa [sendsOf_append, sendsOf, Event.sentBy, Slot.pending] using h1
            · simp only [List.append_nil] at h2
              simp [sendsOf_append, marksOf_append, sendsOf, marksOf, Event.sentBy, Event.markedBy,
                Slot.owedMark]
              simpa [sendsOf, marksOf] using h2
            · simp
            · simp
            · simp
          · intro e he j hj
            simp only [List.mem_singleton] at he; subst he
            simp [Event.sentBy, Event.markedBy, Ne.symm hj]
        · exact h
    · rename_i m hw
      refine h.setSlot i s _ [.markOffset i s.sc.pm.id (checkpointOf m)] hs rfl rfl ?_ ?_
      · have h1 := ok.sends
        have h2 := ok.marks
        simp only [Slot.pending, Slot.owedMark, hw] at h1 h2
        refine ⟨?_, ?_, ?_, ?_, ?_⟩
        · simpa [sendsOf_append, sendsOf, Event.sentBy, Slot.pending] using h1
        · simp [sendsOf_append, marksOf_append, sendsOf, marksOf, Event.sentBy, Event.markedBy,
                Slot.owedMark]
          simpa [sendsOf, marksOf] using h2
        · simp
        · simp
        · simp
      · intro e he j hj
        simp only [List.mem_singleton] at he; subst he
        simp [Event.sentBy, Event.markedBy, Ne.symm hj]
    · exact h

theorem DataInv.data_stepCloser {st : State} (h : DataInv st) (i : Nat) : DataInv (stepCloser st i) := by
  unfold Kafkasflowes.stepCloser
  split
  · exact h
  · rename_i s hs
    have ok := h.slot i s hs
    split
    · split
      · exact h.setSlot i s _ [] hs rfl (by simp [State.setSlot])
          (by rw [List.append_nil]; exact ok.congr rfl rfl rfl) (by simp)
      · exact h
    · exact h.setSlot i s _ [.asyncClose i] hs rfl rfl
          ((ok.emits [.asyncClose i] (by simp [Event.sentBy, Event.markedBy])).congr rfl rfl rfl)
          (by simp [Event.sentBy, Event.markedBy])
    · exact h

theorem DataInv.data_stepMonitor {st : State} (h : DataInv st) (i : Nat) : DataInv (stepMonitor st i) := by
  unfold Kafkasflowes.stepMonitor
  split
  · exact h
  · rename_i s hs
    have ok := h.slot i s hs
    split
    · exact h
    · split
      · exact h.setSlot i s _ [.logPartitionErr i s.partition _] hs rfl rfl
          ((ok.emits [.logPartitionErr i s.partition _] (by simp [Event.sentBy, Event.markedBy])).congr rfl rfl rfl)
          (by simp [Event.sentBy, Event.markedBy])
      · exact h.setSlot i s _ [] hs rfl (by simp [State.setSlot])
          (by rw [List.append_nil]; exact ok.congr rfl rfl rfl) (by simp)
      · split
        · exact h.setSlot i s _ [] hs rfl (by simp [State.setSlot])
            (by rw [List.append_nil]; exact ok.congr rfl rfl rfl) (by simp)
        · exact h

theorem DataInv.data_stepCloseFeeds {st : State} (h : DataInv st) (i : Nat) :
    DataInv (stepCloseFeeds st i) := by
  unfold Kafkasflowes.stepCloseFeeds
  split
  · exact h
  · rename_i s hs
    exact h.setSlot i s _ [] hs rfl (by simp [State.setSlot])
      (by rw [List.append_nil]; exact (h.slot i s hs).congr rfl rfl rfl) (by simp)

theorem DataInv.data_step (cfg : RunEnv) {st : State} (h : DataInv st) (a : Action) :
    DataInv (step cfg st a) := by
  unfold Kafkasflowes.step
  split
  · exact h
  · cases a
    · exact h.data_stepMain cfg
    · exact h.data_stepWatcher
    · exact h.data_stepSignal
    · exact h.data_stepWorker _
    · exact h.data_stepCloser _
    · exact h.data_stepMonitor _
    · exact h.data_stepCloseFeeds _

theorem DataInv.data_start : DataInv State.start := by
  constructor
  · intro i s h; simp [State.start] at h
  · intro e he; simp [State.start] at he

theorem DataInv.data_runFrom (cfg : RunEnv) (sched : List Action) {st : State} (h : DataInv st) :
    DataInv (runFrom cfg st sched) := by
  induction sched generalizing st with
  | nil => exact h
  | cons a t ih => exact ih (h.data_step cfg a)

theorem DataInv.data_run (cfg : RunEnv) (sched : List Action) : DataInv (run cfg sched) :=
  DataInv.data_start.data_runFrom cfg sched

theorem CtrlInv.ctrl_stepMain {cfg : RunEnv} {st : State} (h : CtrlInv cfg st) :
    CtrlInv cfg (stepMain cfg st) := by
  obtain ⟨h1, h2, h3, h4, h5, h6, h7, h8, h9, h10, h11, h12⟩ := h
  unfold Kafkasflowes.stepMain
  split
  · rename_i hm
    refine ⟨h1, h2, ?_, ?_, ?_, h6, h7, ?_, ?_, h10, ?_, ?_⟩ <;>
      simp_all [MainPC.pastWait, MainPC.pastClose, MainPC.remaining]
  · rename_i hm
    refine ⟨h1, h2, ?_, ?_, h5, h6, h7, ?_, ?_, h10, ?_, ?_⟩ <;>
      simp_all [MainPC.pastWait, MainPC.pastClose, MainPC.remaining]
  · rename_i p ps hm
    split
    · refine ⟨h1, h2, ?_, ?_, h5, h6, h7, ?_, ?_, h10, ?_, ?_⟩ <;>
        simp_all [MainPC.pastWait, MainPC.pastClose, MainPC.remaining, State.fatal]
    · refine ⟨h1, ?_, ?_, ?_, h5, h6, h7, ?_, ?_, h10, ?_, ?_⟩ <;>
        simp_all [MainPC.pastWait, MainPC.pastClose, MainPC.remaining, newSlot, Slot.running]
      omega
  · rename_i hm
    split
    · refine ⟨h1, h2, ?_, ?_, h5, h6, h7, ?_, ?_, h10, ?_, ?_⟩ <;>
        simp_all [MainPC.pastWait, MainPC.pastClose, MainPC.remaining]
    · refine ⟨h1, h2, ?_, ?_, h5, h6, h7, ?_, ?_, h10, ?_, ?_⟩ <;>
        simp_all [MainPC.pastWait, MainPC.pastClose, MainPC.remaining, State.fatal]
  · rename_i hm
    refine ⟨h1, h2, ?_, ?_, h5, h6, h7, ?_, ?_, h10, ?_, ?_⟩ <;>
      simp_all [MainPC.pastWait, MainPC.pastClose, MainPC.remaining]
  · rename_i hm
    split
    · refine ⟨h1, h2, ?_, ?_, h5, h6, h7, ?_, ?_, h10, ?_, ?_⟩ <;>
        simp_all [MainPC.pastWait, MainPC.pastClose, MainPC.remaining]
    · exact ⟨h1, h2, h3, h4, h5, h6, h7, h8, h9, h10, h11, h12⟩
  · rename_i hm
    split
    · simp_all [MainPC.pastClose]
    · refine ⟨h1, h2, ?_, ?_, h5, ?_, ?_, ?_, ?_, h10, ?_, ?_⟩ <;>
        simp_all [MainPC.pastWait, MainPC.pastClose, MainPC.remaining, List.count_singleton]
  · rename_i hm
    split
    · refine ⟨h1, h2, ?_, ?_, h5, ?_, ?_, ?_, ?_, h10, ?_, ?_⟩ <;>
        simp_all [MainPC.pastWait, MainPC.pastClose, MainPC.remaining, List.count_singleton]
    · refine ⟨h1, h2, ?_, ?_, h5, ?_, ?_, ?_, ?_, h10, ?_, ?_⟩ <;>
        simp_all [MainPC.pastWait, MainPC.pastClose, MainPC.remaining, List.count_singleton]
  · exact ⟨h1, h2, h3, h4, h5, h6, h7, h8, h9, h10, h11, h12⟩

theorem CtrlInv.ctrl_stepWatcher {cfg : RunEnv} {st : State} (h : CtrlInv cfg st) :
    CtrlInv cfg (stepWatcher st) := by
  obtain ⟨h1, h2, h3, h4, h5, h6, h7, h8, h9, h10, h11, h12⟩ := h
  unfold Kafkasflowes.stepWatcher
  split
  · exact ⟨h1, h2, h3, h4, h5, h6, h7, h8, h9, h10, h11, h12⟩
  · refine ⟨h1, h2, h3, h4, ?_, h6, h7, h8, h9, h10, h11, ?_⟩ <;> simp_all
  · split
    · exact ⟨h1, h2, h3, h4, h5, h6, h7, h8, h9, h10, h11, h12⟩
    · refine ⟨h1, h2, h3, h4, ?_, h6, h7, h8, h9, ?_, h11, ?_⟩ <;> simp_all
  · split
    · simp_all
    · refine ⟨h1, h2, h3, h4, ?_, ?_, ?_, ?_, ?_, h10, h11, ?_⟩ <;>
        simp_all [List.count_singleton]
  · exact ⟨h1, h2, h3, h4, h5, h6, h7, h8, h9, h10, h11, h12⟩

theorem CtrlInv.ctrl_stepSignal {cfg : RunEnv} {st : State} (h : CtrlInv cfg st) :
    CtrlInv cfg (stepSignal st) := by
  obtain ⟨h1, h2, h3, h4, h5, h6, h7, h8, h9, h10, h11, h12⟩ := h
  unfold Kafkasflowes.stepSignal
  split
  · refine ⟨h1, h2, h3, h4, h5, h6, h7, ?_, h9, h10, h11, h12⟩; simp_all
  · refine ⟨h1, h2, h3, h4, h5, h6, h7, ?_, h9, h10, h11, h12⟩; simp_all
  · split
    · refine ⟨h1, h2, h3, h4, h5, h6, h7, h8, h9, ?_, h11, h12⟩; simp
    · exact ⟨h1, h2, h3, h4, h5, h6, h7, h8, h9, h10, h11, h12⟩

theorem countP_running_pos {l : List Slot} {i : Nat} {s : Slot} (hs : l[i]? = some s)
    (hr : s.running = true) : 0 < l.countP Slot.running := by
  rw [List.countP_pos_iff]
  exact ⟨s, List.mem_iff_getElem?.2 ⟨i, hs⟩, hr⟩

theorem countP_running_set {l : List Slot} {i : Nat} {s : Slot} (s' : Slot) (hs : l[i]? = some s) :
    (l.set i s').countP Slot.running + (if s.running then 1 else 0)
      = l.countP Slot.running + (if s'.running then 1 else 0) := by
  obtain ⟨hlt, hget⟩ := List.getElem?_eq_some_iff.1 hs
  rw [List.countP_set _ _ _ _ hlt, hget]
  have : 0 < l.countP Slot.running ∨ s.running = false := by
    cases hr : s.running
    · exact Or.inr rfl
    · exact Or.inl (countP_running_pos hs hr)
  rcases this with h | h
  · split <;> split <;> omega
  · simp [h]

theorem MainPC.pastWait_of_pastClose {m : MainPC} (h : m.pastClose = true) : m.pastWait = true := by
  cases m <;> simp_all [MainPC.pastClose, MainPC.pastWait]

theorem CtrlInv.ctrl_stepWorker {cfg : RunEnv} {st : State} (h : CtrlInv cfg st) (i : Nat) :
    CtrlInv cfg (stepWorker st i) := by
  have h0 := h
  obtain ⟨h1, h2, h3, h4, h5, h6, h7, h8, h9, h10, h11, h12⟩ := h
  unfold Kafkasflowes.stepWorker
  split
  · exact h0
  · rename_i s hs
    split
    · rename_i hw
      have hr : s.running = true := by simp [Slot.running, hw]
      have hpos := countP_running_pos hs hr
      split
      · rename_i m rest hm
        have hc := countP_running_set { s with msgs := rest, worker := .send m } hs
        rw [hr, show Slot.running { s with msgs := rest, worker := .send m } = true from rfl] at hc
        simp only [if_true] at hc
        refine ⟨h1, ?_, h3, h4, h5, h6, h7, h8, h9, h10, ?_, h12⟩
        · simp only [State.setSlot]; omega
        · simpa [State.setSlot] using h11
      · split
        · split
          · omega
          · have hc := countP_running_set { s with worker := .exited } hs
            rw [hr, show Slot.running { s with worker := .exited } = false from rfl] at hc
            refine ⟨h1, ?_, ?_, h4, h5, ?_, ?_, ?_, ?_, h10, ?_, h12⟩
            · simp only []; simp at hc; omega
            · intro hp; have := h3 hp; omega
            · simpa [List.count_singleton] using h6
            · simpa [List.count_singleton] using h7
            · simpa using h8
            · intro hm; simpa using h9 hm
            · simpa using h11
        · exact h0
    · rename_i m hw
      have hr : s.running = true := by simp [Slot.running, hw]
      have hpos := countP_running_pos hs hr
      split
      · rename_i hc
        rw [h4] at hc
        have := h3 (MainPC.pastWait_of_pastClose hc)
        omega
      · split
        · have hc := countP_running_set { s with worker := .mark m } hs
          rw [hr, show Slot.running { s with worker := .mark m } = true from rfl] at hc
          simp only [if_true] at hc
          refine ⟨h1, ?_, h3, h4, h5, ?_, ?_, ?_, ?_, h10, ?_, h12⟩
          · simp only []; omega
          · simpa [List.count_singleton] using h6
          · simpa [List.count_singleton] using h7
          · simpa using h8
          · intro hm; simpa using h9 hm
          · simpa using h11
        · exact h0
    · rename_i m hw
      have hr : s.running = true := by simp [Slot.running, hw]
      have hc := countP_running_set { s with worker := .recv } hs
      rw [hr, show Slot.running { s with worker := .recv } = true from rfl] at hc
      simp only [if_true] at hc
      refine ⟨h1, ?_, h3, h4, h5, ?_, ?_, ?_, ?_, h10, ?_, h12⟩
      · simp only []; omega
      · simpa [List.count_singleton] using h6
      · simpa [List.count_singleton] using h7
      · simpa using h8
      · intro hm; simpa using h9 hm
      · simpa using h11
    · exact h0

theorem CtrlInv.setFlags {cfg : RunEnv} {st : State} (h : CtrlInv cfg st) (i : Nat) (s s' : Slot)
    (evs : List Event) (hs : st.slots[i]? = some s) (hw : s'.worker = s.worker)
    (he : ∀ e ∈ evs, e ≠ .closeMessages ∧ e ≠ .closeClosing ∧ e ≠ .consumerClose) :
    CtrlInv cfg { st with slots := st.slots.set i s', trace := st.trace ++ evs } := by
  obtain ⟨h1, h2, h3, h4, h5, h6, h7, h8, h9, h10, h11, h12⟩ := h
  have hc := countP_running_set s' hs
  have hr : s'.running = s.running := by simp [Slot.running, hw]
  rw [hr] at hc
  have c1 : evs.count .closeMessages = 0 := List.count_eq_zero.2 (fun hm => (he _ hm).1 rfl)
  have c2 : evs.count .closeClosing = 0 := List.count_eq_zero.2 (fun hm => (he _ hm).2.1 rfl)
  have c3 : Event.consumerClose ∉ evs := fun hm => (he _ hm).2.2 rfl
  refine ⟨h1, ?_, h3, h4, h5, ?_, ?_, ?_, ?_, h10, ?_, h12⟩
  · simp only []; omega
  · simpa [c1] using h6
  · simpa [c2] using h7
  · simpa [c3] using h8
  · intro hm; simpa [c3] using h9 hm
  · simpa using h11

theorem CtrlInv.ctrl_stepCloser {cfg : RunEnv} {st : State} (h : CtrlInv cfg st) (i : Nat) :
    CtrlInv cfg (stepCloser st i) := by
  unfold Kafkasflowes.stepCloser
  split
  · exact h
  · rename_i s hs
    split
    · split
      · simpa [State.setSlot] using h.setFlags i s { s with closer := .closing } [] hs rfl (by simp)
      · exact h
    · exact h.setFlags i s { s with closer := .done } [.asyncClose i] hs rfl (by simp)
    · exact h

theorem CtrlInv.ctrl_stepMonitor {cfg : RunEnv} {st : State} (h : CtrlInv cfg st) (i : Nat) :
    CtrlInv cfg (stepMonitor st i) := by
  unfold Kafkasflowes.stepMonitor
  split
  · exact h
  · rename_i s hs
    split
    · exact h
    · split
      · rename_i e rest he
        exact h.setFlags i s { s with errs := rest } [.logPartitionErr i s.partition e] hs rfl
          (by simp)
      · rename_i rest he
        simpa [State.setSlot] using h.setFlags i s { s with errs := rest } [] hs rfl (by simp)
      · split
        · simpa [State.setSlot] using
            h.setFlags i s { s with monitorDone := true } [] hs rfl (by simp)
        · exact h

theorem CtrlInv.ctrl_stepCloseFeeds {cfg : RunEnv} {st : State} (h : CtrlInv cfg st) (i : Nat) :
    CtrlInv cfg (stepCloseFeeds st i) := by
  unfold Kafkasflowes.stepCloseFeeds
  split
  · exact h
  · rename_i s hs
    simpa [State.setSlot] using h.setFlags i s { s with feedsClosed := true } [] hs rfl (by simp)

theorem CtrlInv.ctrl_step {cfg : RunEnv} {st : State} (h : CtrlInv cfg st) (a : Action) :
    CtrlInv cfg (step cfg st a) := by
  unfold Kafkasflowes.step
  split
  · exact h
  · cases a
    · exact h.ctrl_stepMain
    · exact h.ctrl_stepWatcher
    · exact h.ctrl_stepSignal
    · exact h.ctrl_stepWorker _
    · exact h.ctrl_stepCloser _
    · exact h.ctrl_stepMonitor _
    · exact h.ctrl_stepCloseFeeds _

theorem CtrlInv.ctrl_start (cfg : RunEnv) : CtrlInv cfg State.start := by
  refine ⟨?_, ?_, ?_, ?_, ?_, ?_, ?_, ?_, ?_, ?_, ?_, ?_⟩ <;>
    simp [State.start, MainPC.pastWait, MainPC.pastClose, MainPC.remaining]

theorem CtrlInv.ctrl_runFrom {cfg : RunEnv} (sched : List Action) {st : State} (h : CtrlInv cfg st) :
    CtrlInv cfg (runFrom cfg st sched) := by
  induction sched generalizing st with
  | nil => exact h
  | cons a t ih => exact ih (h.ctrl_step a)

theorem CtrlInv.ctrl_run (cfg : RunEnv) (sched : List Action) : CtrlInv cfg (run cfg sched) :=
  (CtrlInv.ctrl_start cfg).ctrl_runFrom sched

theorem step_trace (cfg : RunEnv) (st : State) (a : Action) :
    (step cfg st a).trace = st.trace ∨
      ∃ e, (step cfg st a).trace = st.trace ++ [e] ∧ e.guard st := by
  unfold step
  split
  · exact Or.inl rfl
  · cases a with
    | main =>
      simp only [stepMain]
      split
      · exact Or.inl rfl
      · exact Or.inl rfl
      · split <;> exact Or.inl rfl
      · split <;> exact Or.inl rfl
      · exact Or.inl rfl
      · split <;> exact Or.inl rfl
      · rename_i hm
        split
        · exact Or.inl rfl
        · exact Or.inr ⟨_, rfl, hm⟩
      · rename_i hm
        split <;> exact Or.inr ⟨_, rfl, hm⟩
      · exact Or.inl rfl
    | watcher =>
      simp only [stepWatcher]
      split
      · exact Or.inl rfl
      · exact Or.inl rfl
      · split <;> exact Or.inl rfl
      · rename_i hw
        split
        · exact Or.inl rfl
        · exact Or.inr ⟨_, rfl, hw⟩
      · exact Or.inl rfl
    | signal =>
      simp only [stepSignal]
      split
      · exact Or.inl rfl
      · exact Or.inl rfl
      · split <;> exact Or.inl rfl
    | worker i =>
      simp only [stepWorker]
      split
      · exact Or.inl rfl
      · rename_i s hs
        split
        · rename_i hw
          split
          · exact Or.inl rfl
          · rename_i hm
            split
            · rename_i hf
              split
              · exact Or.inl rfl
              · exact Or.inr ⟨_, rfl, s, hs, hw, hm, hf⟩
            · exact Or.inl rfl
        · rename_i m hw
          split
          · exact Or.inl rfl
          · rename_i hc
            split
            · exact Or.inr ⟨_, rfl, s, hs, hw, by simpa using hc⟩
            · exact Or.inl rfl
        · rename_i m hw
          exact Or.inr ⟨_, rfl, s, m, hs, hw, rfl, rfl⟩
        · exact Or.inl rfl
    | closer i =>
      simp only [stepCloser]
      split
      · exact Or.inl rfl
      · rename_i s hs
        split
        · split <;> exact Or.inl rfl
        · rename_i hc
          exact Or.inr ⟨_, rfl, s, hs, hc⟩
        · exact Or.inl rfl
    | monitor i =>
      simp only [stepMonitor]
      split
      · exact Or.inl rfl
      · rename_i s hs
        split
        · exact Or.inl rfl
        · split
          · rename_i e rest he
            exact Or.inr ⟨_, rfl, s, rest, hs, rfl, he⟩
          · exact Or.inl rfl
          · split <;> exact Or.inl rfl
    | closeFeeds i =>
      simp only [stepCloseFeeds]
      split <;> exact Or.inl rfl

theorem step_slots_length (cfg : RunEnv) (st : State) (a : Action) :
    (step cfg st a).slots.length = st.slots.length ∨ ∃ p ps, st.main = .consume (p :: ps) := by
  unfold step
  split
  · exact Or.inl rfl
  · cases a with
    | main =>
      simp only [stepMain]
      split
      · exact Or.inl rfl
      · exact Or.inl rfl
      · rename_i p ps hm
        exact Or.inr ⟨p, ps, hm⟩
      · split <;> exact Or.inl rfl
      · exact Or.inl rfl
      · split <;> exact Or.inl rfl
      · split <;> exact Or.inl rfl
      · split <;> exact Or.inl rfl
      · exact Or.inl rfl
    | watcher =>
      simp only [stepWatcher]
      split
      · exact Or.inl rfl
      · exact Or.inl rfl
      · split <;> exact Or.inl rfl
      · split <;> exact Or.inl rfl
      · exact Or.inl rfl
    | signal =>
      simp only [stepSignal]
      split
      · exact Or.inl rfl
      · exact Or.inl rfl
      · split <;> exact Or.inl rfl
    | worker i =>
      left
      simp only [stepWorker]
      repeat' split
      all_goals simp [State.setSlot, State.goPanic]
    | closer i =>
      left
      simp only [stepCloser]
      repeat' split
      all_goals simp [State.setSlot]
    | monitor i =>
      left
      simp only [stepMonitor]
      repeat' split
      all_goals simp [State.setSlot]
    | closeFeeds i =>
      left
      simp only [stepCloseFeeds]
      repeat' split
      all_goals simp [State.setSlot]

theorem split_snoc {α : Type} {t pre post : List α} {e x : α} (h : t ++ [e] = pre ++ x :: post) :
    (post = [] ∧ pre = t ∧ x = e) ∨ ∃ post', post = post' ++ [e] ∧ t = pre ++ x :: post' := by
  rcases List.eq_nil_or_concat post with hp | ⟨post', e', hp⟩
  · subst hp
    have := List.append_inj' h rfl
    simp only [List.cons.injEq, and_true] at this
    exact Or.inl ⟨rfl, this.1.symm, this.2.symm⟩
  · subst hp
    right
    have h' : t ++ [e] = (pre ++ x :: post') ++ [e'] := by simpa using h
    have := List.append_inj' h' rfl
    simp only [List.cons.injEq, and_true] at this
    exact ⟨post', by rw [this.2, List.concat_eq_append], this.1⟩

theorem CtrlInv.allExited {cfg : RunEnv} {st : State} (h : CtrlInv cfg st) (hw : st.wg = 0)
    {i : Nat} {s : Slot} (hs : st.slots[i]? = some s) : s.worker = .exited := by
  have h0 : st.slots.countP Slot.running = 0 := by rw [← h.wgCount]; exact hw
  rw [List.countP_eq_zero] at h0
  have := h0 s (List.mem_iff_getElem?.2 ⟨i, hs⟩)
  cases hx : s.worker <;> simp_all [Slot.running]

theorem CtrlInv.closeMessages_mem {cfg : RunEnv} {st : State} (h : CtrlInv cfg st) :
    Event.closeMessages ∈ st.trace ↔ st.messagesClosed = true := by
  have := h.cntMessages
  constructor
  · intro hm
    have hp : 0 < st.trace.count Event.closeMessages := List.count_pos_iff.2 hm
    by_contra hc
    simp [hc] at this
    omega
  · intro hc
    simp [hc] at this
    exact List.count_pos_iff.1 (by omega)

theorem split_snoc_any {α : Type} {t pre post : List α} {e : α} (h : t ++ [e] = pre ++ post) :
    (post = [] ∧ pre = t ++ [e]) ∨ ∃ post', post = post' ++ [e] ∧ t = pre ++ post' := by
  rcases List.eq_nil_or_concat post with hp | ⟨post', e', hp⟩
  · subst hp
    exact Or.inl ⟨rfl, by simpa using h.symm⟩
  · subst hp
    right
    have h' : t ++ [e] = (pre ++ post') ++ [e'] := by simpa using h
    have := List.append_inj' h' rfl
    simp only [List.cons.injEq, and_true] at this
    exact ⟨post', by rw [this.2, List.concat_eq_append], this.1⟩

theorem DataInv.marks_of_trace {st : State} (h : DataInv st) (i : Nat) :
    ∃ rest, marksOf i st.trace ++ rest = (sendsOf i st.trace).map checkpointOf := by
  by_cases hi : i < st.slots.length
  · exact ⟨_, (h.slot i _ (List.getElem?_eq_getElem hi)).marks⟩
  · obtain ⟨h1, h2⟩ := sendsOf_eq_nil_of_inRange h i (by omega)
    exact ⟨[], by simp [h1, h2]⟩

theorem OrderInv.order_step {cfg : RunEnv} {st : State} (ho : OrderInv st) (hc : CtrlInv cfg st)
    (hd : DataInv st) (a : Action) : OrderInv (step cfg st a) := by
  have hlen := step_slots_length cfg st a
  have hlen' : Event.closeMessages ∈ st.trace →
      (Kafkasflowes.step cfg st a).slots.length = st.slots.length := by
    intro hm
    rcases hlen with h | ⟨p, ps, hp⟩
    · exact h
    · have h1 := hc.closeMessages_mem.1 hm
      rw [hc.closedMain, hp] at h1
      simp [MainPC.pastClose] at h1
  have hd' := hd.data_step cfg a
  rcases step_trace cfg st a with ht | ⟨e, ht, hg⟩
  · refine ⟨?_, ?_, ?_, ?_⟩
    · rw [ht]; exact ho.markAfterSend
    · rw [ht]; intro pre post hp
      rw [hlen' (by rw [hp]; simp)]
      exact ho.closeAfterWorkers pre post hp
    · rw [ht]; exact ho.consumerAfterClose
    · rw [ht]; exact ho.marksFollow
  · refine ⟨?_, ?_, ?_, ?_⟩
    · rw [ht]; intro pre post i pm o hp
      rcases split_snoc hp with ⟨_, hpre, he⟩ | ⟨post', _, hold⟩
      · subst he hpre
        obtain ⟨s, m, hs, hw, ho', _⟩ := hg
        exact ⟨m, (hd.slot i s hs).markSent m hw, ho'⟩
      · exact ho.markAfterSend pre post' i pm o hold
    · rw [ht]; intro pre post hp
      rcases split_snoc hp with ⟨hpost, hpre, he⟩ | ⟨post', hpost, hold⟩
      · subst he hpre hpost
        have hm : st.main = .closeMessages := hg
        have hwg : st.wg = 0 := hc.pastWait (by rw [hm]; rfl)
        have hl : (Kafkasflowes.step cfg st a).slots.length = st.slots.length := by
          rcases hlen with h | ⟨p, ps, hp'⟩
          · exact h
          · rw [hm] at hp'; cases hp'
        refine ⟨by simp, ?_⟩
        intro i hi
        rw [hl] at hi
        have hs : st.slots[i]? = some st.slots[i] := List.getElem?_eq_getElem hi
        exact (hd.slot i _ hs).exitedDone (hc.allExited hwg hs)
      · have hmem : Event.closeMessages ∈ st.trace := by rw [hold]; simp
        have hcl := hc.closeMessages_mem.1 hmem
        obtain ⟨h1, h2⟩ := ho.closeAfterWorkers pre post' hold
        rw [hlen' hmem]
        refine ⟨?_, h2⟩
        intro x hx
        rw [hpost] at hx
        rcases List.mem_append.1 hx with hx | hx
        · exact h1 x hx
        · simp only [List.mem_singleton] at hx
          subst hx
          cases x <;> simp only [Event.isSend]
          obtain ⟨s, _, _, hopen⟩ := hg
          rw [hcl] at hopen
          cases hopen
    · rw [ht]; intro pre post hp
      rcases split_snoc hp with ⟨_, hpre, he⟩ | ⟨post', _, hold⟩
      · subst he hpre
        have hm : st.main = .consumerClose := hg
        exact hc.closeMessages_mem.2 (by rw [hc.closedMain, hm]; rfl)
      · exact ho.consumerAfterClose pre post' hold
    · intro pre post i hp
      rw [ht] at hp
      rcases split_snoc_any hp with ⟨_, hpre⟩ | ⟨post', _, hold⟩
      · rw [hpre, ← ht]; exact hd'.marks_of_trace i
      · exact ho.marksFollow pre post' i hold

theorem OrderInv.order_start : OrderInv State.start := by
  refine ⟨?_, ?_, ?_, ?_⟩
  · intro pre; simp [State.start]
  · intro pre; simp [State.start]
  · intro pre; simp [State.start]
  · intro pre post i h
    simp only [State.start] at h
    have : pre = [] := (List.append_eq_nil.1 h.symm).1
    subst this
    exact ⟨[], rfl⟩

/-- All three invariants hold along every run from a state where they hold. -/
theorem invariants_runFrom (cfg : RunEnv) (sched : List Action) {st : State}
    (hc : CtrlInv cfg st) (hd : DataInv st) (ho : OrderInv st) :
    CtrlInv cfg (runFrom cfg st sched) ∧ DataInv (runFrom cfg st sched) ∧
      OrderInv (runFrom cfg st sched) := by
  induction sched generalizing st with
  | nil => exact ⟨hc, hd, ho⟩
  | cons a t ih => exact ih (hc.ctrl_step a) (hd.data_step cfg a) (ho.order_step hc hd a)

theorem OrderInv.order_run (cfg : RunEnv) (sched : List Action) : OrderInv (run cfg sched) :=
  (invariants_runFrom cfg sched (CtrlInv.ctrl_start cfg) DataInv.data_start OrderInv.order_start).2.2

theorem drop_eq_cons {α : Type} {l : List α} {n : Nat} {a : α} {t : List α}
    (h : a :: t = l.drop n) : l[n]? = some a ∧ t = l.drop (n + 1) := by
  induction l generalizing n with
  | nil => simp at h
  | cons x l ih =>
    cases n with
    | zero =>
      simp only [List.drop_zero, List.cons.injEq] at h
      simp [h.1, h.2]
    | succ n =>
      simp only [List.drop_succ_cons] at h
      simpa using ih h

theorem BindInv.bind_same {cfg : RunEnv} {st st' : State} (h : BindInv cfg st)
    (hs : st'.slots = st.slots) (hm : st'.main = st.main) : BindInv cfg st' := by
  constructor
  · rw [hs, hm]; exact h.rest
  · rw [hs]; exact h.bound
  · rw [hs, hm]; exact h.fresh

theorem BindInv.leave {cfg : RunEnv} {st st' : State} (h : BindInv cfg st)
    (hs : st'.slots = st.slots) (hm : ∀ r, st'.main ≠ .consume r) (hg : st'.main ≠ .goWatch) :
    BindInv cfg st' := by
  constructor
  · intro r hr; exact absurd hr (hm r)
  · rw [hs]; exact h.bound
  · intro hr; exact absurd hr hg

theorem BindInv.bind_setSlot {cfg : RunEnv} {st st' : State} (h : BindInv cfg st) (i : Nat) (s s' : Slot)
    (hi : st.slots[i]? = some s) (hs : st'.slots = st.slots.set i s') (hm : st'.main = st.main)
    (h1 : s'.sc = s.sc) (h2 : s'.partition = s.partition) : BindInv cfg st' := by
  have hlt : i < st.slots.length := (List.getElem?_eq_some_iff.1 hi).1
  constructor
  · rw [hs, hm, List.length_set]; exact h.rest
  · rw [hs]; intro j sj hj
    by_cases hji : j = i
    · subst hji
      rw [List.getElem?_set_self hlt] at hj
      cases hj
      rw [h1, h2]; exact h.bound j s hi
    · rw [List.getElem?_set_ne (Ne.symm hji)] at hj
      exact h.bound j sj hj
  · rw [hs, hm]; intro hg
    have := h.fresh hg
    rw [this] at hi; simp at hi

theorem BindInv.bind_stepMain {cfg : RunEnv} {st : State} (h : BindInv cfg st) :
    BindInv cfg (stepMain cfg st) := by
  unfold stepMain
  split
  · rename_i hm
    constructor
    · intro r hr
      simp only [MainPC.consume.injEq] at hr
      rw [h.fresh hm, ← hr]; rfl
    · exact h.bound
    · intro hr; cases hr
  · exact h.leave rfl (by simp) (by simp)
  · rename_i p ps hm
    split
    · exact h.bind_same rfl rfl
    · rename_i sc hsc
      obtain ⟨hp, hps⟩ := drop_eq_cons (h.rest _ hm)
      constructor
      · intro r hr
        simp only [MainPC.consume.injEq] at hr
        rw [← hr, hps]; simp
      · intro j sj hj
        rcases Nat.lt_trichotomy j st.slots.length with hlt | heq | hgt
        · simp only [List.getElem?_append_left hlt] at hj
          exact h.bound j sj hj
        · subst heq
          simp only [List.getElem?_append_right (le_refl _), Nat.sub_self,
            List.getElem?_cons_zero, Option.some.injEq] at hj
          subst hj
          exact ⟨p, hp, hsc, rfl⟩
        · have : (st.slots ++ [newSlot p.partition sc])[j]? = none :=
            List.getElem?_eq_none (by simp; omega)
          simp only [this] at hj
          cases hj
      · intro hr; cases hr
  · split
    · exact h.leave rfl (by simp) (by simp)
    · exact h.bind_same rfl rfl
  · exact h.leave rfl (by simp) (by simp)
  · split
    · exact h.leave rfl (by simp) (by simp)
    · exact h
  · split
    · exact h.bind_same rfl rfl
    · exact h.leave rfl (by simp) (by simp)
  · split
    · exact h.leave rfl (by simp) (by simp)
    · exact h.bind_same rfl rfl
  · exact h

theorem BindInv.bind_step {cfg : RunEnv} {st : State} (h : BindInv cfg st) (a : Action) :
    BindInv cfg (step cfg st a) := by
  unfold step
  split
  · exact h
  · cases a with
    | main => exact h.bind_stepMain
    | watcher =>
      simp only [stepWatcher]
      repeat' split
      all_goals exact h.bind_same rfl rfl
    | signal =>
      simp only [stepSignal]
      repeat' split
      all_goals exact h.bind_same rfl rfl
    | worker i =>
      simp only [stepWorker]
      split
      · exact h
      · rename_i s hs
        repeat' split
        all_goals first
          | exact h
          | exact h.bind_same rfl rfl
          | exact h.bind_setSlot i s _ hs rfl rfl rfl rfl
    | closer i =>
      simp only [stepCloser]
      split
      · exact h
      · rename_i s hs
        repeat' split
        all_goals first
          | exact h
          | exact h.bind_setSlot i s _ hs rfl rfl rfl rfl
    | monitor i =>
      simp only [stepMonitor]
      split
      · exact h
      · rename_i s hs
        repeat' split
        all_goals first
          | exact h
          | exact h.bind_setSlot i s _ hs rfl rfl rfl rfl
    | closeFeeds i =>
      simp only [stepCloseFeeds]
      split
      · exact h
      · rename_i s hs
        exact h.bind_setSlot i s _ hs rfl rfl rfl rfl

theorem BindInv.bind_start (cfg : RunEnv) : BindInv cfg State.start := by
  refine ⟨?_, ?_, ?_⟩ <;> simp [State.start]

theorem BindInv.bind_runFrom {cfg : RunEnv} (sched : List Action) {st : State} (h : BindInv cfg st) :
    BindInv cfg (runFrom cfg st sched) := by
  induction sched generalizing st with
  | nil => exact h
  | cons a t ih => exact ih (h.bind_step a)

theorem BindInv.bind_run (cfg : RunEnv) (sched : List Action) : BindInv cfg (run cfg sched) :=
  (BindInv.bind_start cfg).bind_runFrom sched

theorem consumeSetup_ok {p : PartitionSetup} {sc : ConsumeManager} (h : consumeSetup p = .ok sc) :
    p.ManagePartition = .ok sc.pm ∧ p.ConsumePartition = .ok sc.pc := by
  cases hpm : p.ManagePartition with
  | err e => simp [consumeSetup, hpm] at h
  | ok pm =>
    cases hpc : p.ConsumePartition with
    | err e => simp [consumeSetup, hpm, hpc] at h
    | ok pc =>
      simp only [consumeSetup, hpm, hpc, Outcome.ok.injEq] at h
      subst h
      exact ⟨rfl, rfl⟩

theorem delivered_filter (i : Nat) (t : List Event) :
    ((delivered t).filter (fun d => decide (d.1 = i))).map Prod.snd = sendsOf i t := by
  induction t with
  | nil => rfl
  | cons e t ih =>
    cases e with
    | send j m =>
      by_cases hj : j = i
      · simp [delivered, sendsOf, Event.delivery, Event.sentBy, List.filterMap_cons, hj] at ih ⊢
        exact ih
      · simp [delivered, sendsOf, Event.delivery, Event.sentBy, List.filterMap_cons, hj] at ih ⊢
        exact ih
    | _ =>
      simp [delivered, sendsOf, Event.delivery, Event.sentBy, List.filterMap_cons] at ih ⊢
      exact ih

/-- C1: in every run and for every prefix `pre` of its trace, each checkpoint event
`MarkOffset(o)` of a partition worker in `pre` is preceded in `pre` by the completed
send, by the same worker, of a message `m` with `o = m.Offset+1` (in `int64`); and the
checkpoints of a worker are, in order, those of the first messages it has sent, so
no checkpoint is issued ahead of the send of its message. -/
theorem checkpoint_only_after_send (cfg : RunEnv) (sched : List Action) (pre post : List Event)
    (h : (run cfg sched).trace = pre ++ post) :
    (∀ a b i pm o, pre = a ++ Event.markOffset i pm o :: b →
        ∃ m, Event.send i m ∈ a ∧ o = wrapInt64 (m.Offset + 1)) ∧
    (∀ i, ∃ rest, marksOf i pre ++ rest =
        (sendsOf i pre).map (fun m => wrapInt64 (m.Offset + 1))) := by
  have ho := OrderInv.order_run cfg sched
  constructor
  · intro a b i pm o hp
    exact ho.markAfterSend a (b ++ post) i pm o (by rw [h, hp]; simp)
  · intro i
    exact ho.marksFollow pre post i h

/-- C1 witness: in the three-partition run, the checkpoint 11 of the first worker
follows its send of offset 10. -/
theorem checkpoint_only_after_send_witness :
    (∀ a b i pm o, [Event.send 0 (msgAt 1 10), Event.send 1 (msgAt 2 5),
          Event.markOffset 0 0 11] = a ++ Event.markOffset i pm o :: b →
        ∃ m, Event.send i m ∈ a ∧ o = wrapInt64 (m.Offset + 1)) ∧
    (∀ i, ∃ rest, marksOf i [Event.send 0 (msgAt 1 10), Event.send 1 (msgAt 2 5),
          Event.markOffset 0 0 11] ++ rest =
        (sendsOf i [Event.send 0 (msgAt 1 10), Event.send 1 (msgAt 2 5),
          Event.markOffset 0 0 11]).map (fun m => wrapInt64 (m.Offset + 1))) :=
  checkpoint_only_after_send threeCfg threeSchedule
    [Event.send 0 (msgAt 1 10), Event.send 1 (msgAt 2 5), Event.markOffset 0 0 11]
    ((run threeCfg threeSchedule).trace.drop 3) (by decide)

/-- C2: in every run, whatever the interleaving of the workers, the messages received
from the bus that were sent by the worker of the `i`-th partition, followed by the
messages that worker has not handed over yet, are exactly the sequence its partition
consumer yields, in that order; once the worker has left its loop they are the whole
source sequence. -/
theorem partition_order_preserved (cfg : RunEnv) (sched : List Action) (i : Nat) (s : Slot)
    (hs : (run cfg sched).slots[i]? = some s) :
    ∃ p pc, cfg.partitions[i]? = some p ∧ p.ConsumePartition = .ok pc ∧
      ((delivered (run cfg sched).trace).filter (fun d => decide (d.1 = i))).map Prod.snd
          ++ s.pending = pc.Messages ∧
      (s.worker = .exited →
        ((delivered (run cfg sched).trace).filter (fun d => decide (d.1 = i))).map Prod.snd
          = pc.Messages) := by
  obtain ⟨p, hp, hsc, _⟩ := (BindInv.bind_run cfg sched).bound i s hs
  have ok := (DataInv.data_run cfg sched).slot i s hs
  refine ⟨p, s.sc.pc, hp, (consumeSetup_ok hsc).2, ?_, ?_⟩
  · rw [delivered_filter]; exact ok.sends
  · intro he
    rw [delivered_filter]
    have := ok.sends
    simpa [Slot.pending, he, ok.exitedEmpty he] using this

/-- C2 witness: in the three-partition run the first partition's offsets 10, 11, 12
arrive in that order, interleaved with offset 5 of the second partition. -/
theorem partition_order_preserved_witness :
    (run threeCfg threeSchedule).slots[0]? = some threeSlot0 ∧
    ∃ p pc, threeCfg.partitions[0]? = some p ∧ p.ConsumePartition = .ok pc ∧
      ((delivered (run threeCfg threeSchedule).trace).filter (fun d => decide (d.1 = 0))).map
          Prod.snd ++ threeSlot0.pending = pc.Messages ∧
      (threeSlot0.worker = .exited →
        ((delivered (run threeCfg threeSchedule).trace).filter (fun d => decide (d.1 = 0))).map
          Prod.snd = pc.Messages) :=
  ⟨by decide, partition_order_preserved threeCfg threeSchedule 0 threeSlot0 (by decide)⟩

/-- C3: in every run of lines 106-136 of `main`: nothing panics; `close(k.Messages)`
happens at most once, and exactly once when `main` has run to its end; when it
happens the wait-group counter is zero and every spawned worker has left its loop
(its `wg.Done()` precedes the close in the trace); no send onto the bus follows the
close; `k.Consumer.Close()` happens only after the bus has been closed; and the close
does happen: once the counter is zero at `wg.Wait()`, the next two steps of `main`
close the bus. -/
theorem bus_closed_once_after_workers (cfg : RunEnv) (sched : List Action) :
    (run cfg sched).panicked = false ∧
    (run cfg sched).trace.count Event.closeMessages ≤ 1 ∧
    ((run cfg sched).main = .returned →
        (run cfg sched).trace.count Event.closeMessages = 1) ∧
    ((run cfg sched).messagesClosed = true →
        (run cfg sched).wg = 0 ∧ ∀ s ∈ (run cfg sched).slots, s.worker = .exited) ∧
    (∀ pre post, (run cfg sched).trace = pre ++ Event.closeMessages :: post →
        (∀ i, i < (run cfg sched).slots.length → Event.workerDone i ∈ pre) ∧
        (∀ e ∈ post, e.isSend = false)) ∧
    (∀ pre post, (run cfg sched).trace = pre ++ Event.consumerClose :: post →
        Event.closeMessages ∈ pre) ∧
    ((run cfg sched).halted = false → (run cfg sched).main = .wait → (run cfg sched).wg = 0 →
        (run cfg (sched ++ [.main, .main])).messagesClosed = true ∧
        (run cfg (sched ++ [.main, .main])).trace
          = (run cfg sched).trace ++ [Event.closeMessages]) := by
  have hc := CtrlInv.ctrl_run cfg sched
  have ho := OrderInv.order_run cfg sched
  refine ⟨hc.noPanic, ?_, ?_, ?_, ?_, ho.consumerAfterClose, ?_⟩
  · rw [hc.cntMessages]; split <;> omega
  · intro hm
    rw [hc.cntMessages, hc.closedMain, hm]; rfl
  · intro hcl
    have hw : (run cfg sched).wg = 0 :=
      hc.pastWait (MainPC.pastWait_of_pastClose (by rw [← hc.closedMain]; exact hcl))
    refine ⟨hw, ?_⟩
    intro s hs
    obtain ⟨i, hi⟩ := List.mem_iff_getElem?.1 hs
    exact hc.allExited hw hi
  · intro pre post hp
    obtain ⟨h1, h2⟩ := ho.closeAfterWorkers pre post hp
    exact ⟨h2, h1⟩
  · intro hh hm hw
    have hcl : (run cfg sched).messagesClosed = false := by rw [hc.closedMain, hm]; rfl
    rw [run_append]
    simp [runFrom, step, stepMain, hh, hm, hw, hcl]

/-- C3 witness: the three-partition run ends with exactly one close of the bus. -/
theorem bus_closed_once_after_workers_witness :
    (run threeCfg threeSchedule).main = .returned ∧
      (run threeCfg threeSchedule).trace.count Event.closeMessages = 1 :=
  ⟨by decide, (bus_closed_once_after_workers threeCfg threeSchedule).2.2.1 (by decide)⟩

theorem consume_char (parts : List PartitionSetup) (g : List Goroutine) (wg : Nat) :
    ∃ done scs, List.Forall₂ (fun p sc => consumeSetup p = .ok sc) done scs ∧
      (ConsumeAndIndex parts g wg).spawned = g ++ spawnsFor done scs ∧
      (ConsumeAndIndex parts g wg).wg = wg + done.length ∧
      (((ConsumeAndIndex parts g wg).err = none ∧ parts = done) ∨
        ∃ p rest e, parts = done ++ p :: rest ∧ consumeSetup p = .err e ∧
          (ConsumeAndIndex parts g wg).err = some e) := by
  induction parts generalizing g wg with
  | nil => exact ⟨[], [], List.Forall₂.nil, by simp [ConsumeAndIndex, spawnsFor], rfl, Or.inl ⟨rfl, rfl⟩⟩
  | cons p ps ih =>
    cases hp : consumeSetup p with
    | err e =>
      refine ⟨[], [], List.Forall₂.nil, by simp [ConsumeAndIndex, hp, spawnsFor], ?_, ?_⟩
      · simp [ConsumeAndIndex, hp]
      · exact Or.inr ⟨p, ps, e, rfl, hp, by simp [ConsumeAndIndex, hp]⟩
    | ok sc =>
      obtain ⟨done, scs, hf, hs, hw, hr⟩ := ih (g ++ consumeSpawns p.partition sc) (wg + 1)
      refine ⟨p :: done, sc :: scs, List.Forall₂.cons hp hf, ?_, ?_, ?_⟩
      · simp only [ConsumeAndIndex, hp]
        rw [hs]; simp [spawnsFor]
      · simp only [ConsumeAndIndex, hp]
        rw [hw]; simp; omega
      · simp only [ConsumeAndIndex, hp]
        rcases hr with ⟨h1, h2⟩ | ⟨q, rest, e, h1, h2, h3⟩
        · exact Or.inl ⟨h1, by rw [h2]⟩
        · exact Or.inr ⟨q, rest, e, by rw [h1]; rfl, h2, h3⟩

theorem spawnsFor_counts {ps : List PartitionSetup} {scs : List ConsumeManager}
    (h : List.Forall₂ (fun p sc => consumeSetup p = .ok sc) ps scs) :
    (spawnsFor ps scs).countP Goroutine.isWorker = ps.length ∧
      (spawnsFor ps scs).countP Goroutine.isMonitor = ps.length := by
  induction h with
  | nil => simp [spawnsFor]
  | cons hp _ ih =>
    simp only [spawnsFor, List.zipWith_cons_cons, List.flatten_cons, List.countP_append,
      List.length_cons] at ih ⊢
    rw [ih.1, ih.2]
    simp [consumeSpawns, List.countP_cons, Goroutine.isWorker, Goroutine.isMonitor]
    omega

theorem spawnsFor_eq (ps : List PartitionSetup) (scs : List ConsumeManager) :
    spawnsFor ps scs = (List.zipWith (fun p sc =>
      [Goroutine.errorMonitor sc.pc OffsetNewest p.partition, Goroutine.closer sc.pc,
        Goroutine.worker sc]) ps scs).flatten := rfl

/-- C9: when `ConsumeAndIndex` returns no error on `n` partitions, the setup calls of
every partition succeeded, the goroutines it started are, partition by partition in
list order, one error monitor, one closer and one worker bound to the consumer and
the offset manager that this partition's own calls returned (so exactly `n` workers and
`n` error monitors), and the wait group received exactly `n` calls of `Add(1)`. -/
theorem consume_spawns_pair_per_partition (parts : List PartitionSetup) (g : List Goroutine)
    (wg : Nat) (h : (ConsumeAndIndex parts g wg).err = none) :
    ∃ scs : List ConsumeManager,
      List.Forall₂ (fun p sc => p.ManagePartition = .ok sc.pm ∧ p.ConsumePartition = .ok sc.pc)
        parts scs ∧
      (ConsumeAndIndex parts g wg).spawned = g ++ (List.zipWith (fun p sc =>
        [Goroutine.errorMonitor sc.pc OffsetNewest p.partition, Goroutine.closer sc.pc,
          Goroutine.worker sc]) parts scs).flatten ∧
      (ConsumeAndIndex parts g wg).spawned.countP Goroutine.isWorker
        = g.countP Goroutine.isWorker + parts.length ∧
      (ConsumeAndIndex parts g wg).spawned.countP Goroutine.isMonitor
        = g.countP Goroutine.isMonitor + parts.length ∧
      (ConsumeAndIndex parts g wg).wg = wg + parts.length := by
  obtain ⟨done, scs, hf, hs, hw, hr⟩ := consume_char parts g wg
  rcases hr with ⟨_, hd⟩ | ⟨p, rest, e, _, _, he⟩
  · subst hd
    obtain ⟨c1, c2⟩ := spawnsFor_counts hf
    refine ⟨scs, hf.imp (fun _ _ hab => consumeSetup_ok hab), ?_, ?_, ?_, hw⟩
    · rw [hs, spawnsFor_eq]
    · rw [hs, List.countP_append, c1]
    · rw [hs, List.countP_append, c2]
  · rw [he] at h; cases h

/-- C9 witness: the three partitions of the scenario get three workers. -/
theorem consume_spawns_pair_per_partition_witness :
    ∃ scs : List ConsumeManager,
      List.Forall₂ (fun p sc => p.ManagePartition = .ok sc.pm ∧ p.ConsumePartition = .ok sc.pc)
        threeCfg.partitions scs ∧
      (ConsumeAndIndex threeCfg.partitions [] 0).spawned = [] ++ (List.zipWith (fun p sc =>
        [Goroutine.errorMonitor sc.pc OffsetNewest p.partition, Goroutine.closer sc.pc,
          Goroutine.worker sc]) threeCfg.partitions scs).flatten ∧
      (ConsumeAndIndex threeCfg.partitions [] 0).spawned.countP Goroutine.isWorker
        = ([] : List Goroutine).countP Goroutine.isWorker + threeCfg.partitions.length ∧
      (ConsumeAndIndex threeCfg.partitions [] 0).spawned.countP Goroutine.isMonitor
        = ([] : List Goroutine).countP Goroutine.isMonitor + threeCfg.partitions.length ∧
      (ConsumeAndIndex threeCfg.partitions [] 0).wg = 0 + threeCfg.partitions.length :=
  consume_spawns_pair_per_partition threeCfg.partitions [] 0 (by decide)

/-- C5 counterexample: with two partitions of which the second fails in
`ManagePartition`, `ConsumeAndIndex` returns the error after it has started the error
monitor, closer and worker of the first partition and added one to the wait group. -/
theorem startup_leaves_workers_running :
    (ConsumeAndIndex failSecond [] 0).err = some "manage" ∧
    (ConsumeAndIndex failSecond [] 0).spawned =
      [Goroutine.errorMonitor { id := 0, Messages := [], Errors := [] } (-1) 0,
       Goroutine.closer { id := 0, Messages := [], Errors := [] },
       Goroutine.worker { pc := { id := 0, Messages := [], Errors := [] }, pm := { id := 0 } }] ∧
    (ConsumeAndIndex failSecond [] 0).wg = 1 := by
  decide

/-- C5 amended: `ConsumeAndIndex` stops at the first partition whose setup fails. When it
returns an error `e`, the partition list splits into partitions whose setup
succeeded, the partition for which `ManagePartition` or `ConsumePartition` returned
`e`, and the rest; the goroutines started are exactly the error monitor, closer and
worker of each partition before the failing one, the wait group received one `Add(1)`
for each of them, and nothing is started for the failing partition or those after
it. When `InitKafka` returns an error, nothing has been started and the counter is
zero. In `main` the failing iteration ends the process (`logrus.Fatal`), after which
nothing moves. -/
theorem startup_stops_at_first_failure :
    (∀ (parts : List PartitionSetup) (g : List Goroutine) (wg : Nat) (e : GoError),
      (ConsumeAndIndex parts g wg).err = some e →
      ∃ done p rest scs, parts = done ++ p :: rest ∧
        (p.ManagePartition = .err e ∨
          ∃ pm, p.ManagePartition = .ok pm ∧ p.ConsumePartition = .err e) ∧
        List.Forall₂ (fun p sc => p.ManagePartition = .ok sc.pm ∧ p.ConsumePartition = .ok sc.pc)
          done scs ∧
        (ConsumeAndIndex parts g wg).spawned = g ++ (List.zipWith (fun p sc =>
          [Goroutine.errorMonitor sc.pc OffsetNewest p.partition, Goroutine.closer sc.pc,
            Goroutine.worker sc]) done scs).flatten ∧
        (ConsumeAndIndex parts g wg).wg = wg + done.length) ∧
    (∀ (kc : KafkaConfig) (b : BrokerOutcomes)
        (answers : Int → Outcome PartitionOffsetManager × Outcome PartitionConsumer) (e : GoError),
      InitKafka kc b = .err e →
        (startup kc b answers).err = some e ∧ (startup kc b answers).spawned = [] ∧
          (startup kc b answers).wg = 0) ∧
    (∀ (cfg : RunEnv) (sched : List Action) (p : PartitionSetup) (ps : List PartitionSetup)
        (e : GoError),
      (run cfg sched).main = .consume (p :: ps) → consumeSetup p = .err e →
        (run cfg (sched ++ [.main])).halted = true ∧
          ∀ more, run cfg (sched ++ [.main] ++ more) = run cfg (sched ++ [.main])) := by
  refine ⟨?_, ?_, ?_⟩
  · intro parts g wg e h
    obtain ⟨done, scs, hf, hs, hw, hr⟩ := consume_char parts g wg
    rcases hr with ⟨hn, _⟩ | ⟨p, rest, e', hp, hfail, he⟩
    · rw [hn] at h; cases h
    · rw [he] at h
      cases h
      refine ⟨done, p, rest, scs, hp, ?_, hf.imp (fun _ _ hab => consumeSetup_ok hab), ?_, hw⟩
      · cases hpm : p.ManagePartition with
        | err e1 =>
          simp only [consumeSetup, hpm, Outcome.err.injEq] at hfail
          exact Or.inl (by rw [hfail])
        | ok pm =>
          cases hpc : p.ConsumePartition with
          | err e2 =>
            simp only [consumeSetup, hpm, hpc, Outcome.err.injEq] at hfail
            exact Or.inr ⟨pm, rfl, by rw [hfail]⟩
          | ok pc => simp [consumeSetup, hpm, hpc] at hfail
      · rw [hs, spawnsFor_eq]
  · intro kc b answers e h
    simp [startup, h]
  · intro cfg sched p ps e hm hp
    have hhalt : (run cfg (sched ++ [.main])).halted = true := by
      rw [run_append]
      by_cases hh : (run cfg sched).halted = true
      · simp [runFrom, step, hh]
      · simp [runFrom, step, stepMain, hh, hm, hp, State.fatal]
    refine ⟨hhalt, ?_⟩
    intro more
    rw [run_append]
    exact runFrom_halted cfg more hhalt

/-- C5 amended, witness: the failing second partition leaves the first one's goroutines. -/
theorem startup_stops_at_first_failure_witness :
    ∃ done p rest scs, failSecond = done ++ p :: rest ∧
        (p.ManagePartition = .err "manage" ∨
          ∃ pm, p.ManagePartition = .ok pm ∧ p.ConsumePartition = .err "manage") ∧
        List.Forall₂ (fun p sc => p.ManagePartition = .ok sc.pm ∧ p.ConsumePartition = .ok sc.pc)
          done scs ∧
        (ConsumeAndIndex failSecond [] 0).spawned = [] ++ (List.zipWith (fun p sc =>
          [Goroutine.errorMonitor sc.pc OffsetNewest p.partition, Goroutine.closer sc.pc,
            Goroutine.worker sc]) done scs).flatten ∧
        (ConsumeAndIndex failSecond [] 0).wg = 0 + done.length :=
  startup_stops_at_first_failure.1 failSecond [] 0 "manage" (by decide)

theorem logsOf_append (i : Nat) (a b : List Event) :
    logsOf i (a ++ b) = logsOf i a ++ logsOf i b := by
  simp [logsOf]

theorem logsOf_eq_nil {i : Nat} {evs : List Event} (h : ∀ e ∈ evs, e.loggedBy i = none) :
    logsOf i evs = [] := by
  simp only [logsOf, List.filterMap_eq_nil_iff]; exact h

theorem LogInv.log_same {st st' : State} (h : LogInv st) (hs : st'.slots = st.slots)
    (ht : st'.trace = st.trace) : LogInv st' := by
  constructor
  · rw [hs, ht]; exact h.logs
  · rw [hs, ht]; exact h.logRange

theorem LogInv.log_setSlot {st st' : State} (h : LogInv st) (i : Nat) (s s' : Slot)
    (evs : List Event) (hi : st.slots[i]? = some s) (hs : st'.slots = st.slots.set i s')
    (ht : st'.trace = st.trace ++ evs)
    (hok : logsOf i evs ++ reportsOf s'.partition s'.errs = reportsOf s.partition s.errs)
    (hsc : reportsOf s'.partition s'.sc.pc.Errors = reportsOf s.partition s.sc.pc.Errors)
    (he : ∀ e ∈ evs, ∀ j, j ≠ i → e.loggedBy j = none) : LogInv st' := by
  have hlt : i < st.slots.length := (List.getElem?_eq_some_iff.1 hi).1
  constructor
  · rw [hs, ht]; intro j sj hj
    by_cases hji : j = i
    · subst hji
      rw [List.getElem?_set_self hlt] at hj
      cases hj
      rw [logsOf_append, List.append_assoc, hok, hsc]
      exact h.logs j s hi
    · rw [List.getElem?_set_ne (Ne.symm hji)] at hj
      rw [logsOf_append, logsOf_eq_nil (fun e he' => he e he' j hji), List.append_nil]
      exact h.logs j sj hj
  · rw [hs, ht]; intro x hx j hj
    rw [List.length_set]
    rcases List.mem_append.1 hx with hx | hx
    · exact h.logRange x hx j hj
    · by_cases hji : j = i
      · subst hji; exact hlt
      · exact absurd (he x hx j hji) hj

theorem LogInv.log_global {st st' : State} (h : LogInv st) (e : Event) (hs : st'.slots = st.slots)
    (ht : st'.trace = st.trace ++ [e]) (he : ∀ i, e.loggedBy i = none) : LogInv st' := by
  constructor
  · rw [hs, ht]; intro i s hi
    have hn : logsOf i [e] = [] := logsOf_eq_nil (by simpa using he i)
    rw [logsOf_append, hn, List.append_nil]
    exact h.logs i s hi
  · rw [hs, ht]; intro x hx i hi
    rcases List.mem_append.1 hx with hx | hx
    · exact h.logRange x hx i hi
    · simp only [List.mem_singleton] at hx; subst hx
      exact absurd (he i) hi

theorem LogInv.log_addSlot {st st' : State} (h : LogInv st) (p : Int) (sc : ConsumeManager)
    (hs : st'.slots = st.slots ++ [newSlot p sc]) (ht : st'.trace = st.trace) : LogInv st' := by
  constructor
  · rw [hs, ht]; intro j sj hj
    rcases Nat.lt_trichotomy j st.slots.length with hlt | heq | hgt
    · rw [List.getElem?_append_left hlt] at hj
      exact h.logs j sj hj
    · subst heq
      rw [List.getElem?_append_right (le_refl _)] at hj
      simp only [Nat.sub_self, List.getElem?_cons_zero, Option.some.injEq] at hj
      subst hj
      have : logsOf st.slots.length st.trace = [] := by
        apply logsOf_eq_nil
        intro e he
        by_contra hne
        exact absurd (h.logRange e he _ hne) (by omega)
      rw [this]; rfl
    · rw [List.getElem?_eq_none (by simp; omega)] at hj
      cases hj
  · rw [hs, ht]; intro x hx j hj
    have := h.logRange x hx j hj
    simp; omega

theorem LogInv.log_step (cfg : RunEnv) {st : State} (h : LogInv st) (a : Action) :
    LogInv (step cfg st a) := by
  unfold step
  split
  · exact h
  · cases a with
    | main =>
      simp only [stepMain]
      repeat' split
      all_goals first
        | exact h
        | exact h.log_same rfl rfl
        | exact h.log_addSlot _ _ rfl rfl
        | exact h.log_global _ rfl rfl (fun i => rfl)
    | watcher =>
      simp only [stepWatcher]
      repeat' split
      all_goals first
        | exact h
        | exact h.log_same rfl rfl
        | exact h.log_global _ rfl rfl (fun i => rfl)
    | signal =>
      simp only [stepSignal]
      repeat' split
      all_goals first
        | exact h
        | exact h.log_same rfl rfl
    | worker i =>
      simp only [stepWorker]
      split
      · exact h
      · rename_i s hs
        have nolog : ∀ (ev : Event), (∀ j, ev.loggedBy j = none) →
            ∀ e ∈ [ev], ∀ j, j ≠ i → e.loggedBy j = none := by
          intro ev hev e he j _
          simp only [List.mem_singleton] at he
          subst he
          exact hev j
        split
        · split
          · exact h.log_setSlot i s _ [] hs rfl (by simp [State.setSlot]) rfl rfl (by simp)
          · split
            · split
              · exact h.log_same rfl rfl
              · exact h.log_setSlot i s _ [.workerDone i] hs rfl rfl rfl rfl
                  (nolog _ (fun _ => rfl))
            · exact h
        · rename_i m hw
          split
          · exact h.log_same rfl rfl
          · split
            · exact h.log_setSlot i s _ [.send i m] hs rfl rfl rfl rfl (nolog _ (fun _ => rfl))
            · exact h
        · rename_i m hw
          exact h.log_setSlot i s _ [.markOffset i s.sc.pm.id (checkpointOf m)] hs rfl rfl rfl rfl
            (nolog _ (fun _ => rfl))
        · exact h
    | closer i =>
      simp only [stepCloser]
      split
      · exact h
      · rename_i s hs
        split
        · split
          · exact h.log_setSlot i s _ [] hs rfl (by simp [State.setSlot]) rfl rfl (by simp)
          · exact h
        · refine h.log_setSlot i s _ [.asyncClose i] hs rfl rfl rfl rfl ?_
          intro e he j _
          simp only [List.mem_singleton] at he
          subst he
          rfl
        · exact h
    | monitor i =>
      simp only [stepMonitor]
      split
      · exact h
      · rename_i s hs
        split
        · exact h
        · split
          · rename_i e rest he
            refine h.log_setSlot i s _ [.logPartitionErr i s.partition e] hs rfl rfl ?_ rfl ?_
            · simp [logsOf, Event.loggedBy, reportsOf, he]
            · intro x hx j hj
              simp only [List.mem_singleton] at hx; subst hx
              simp [Event.loggedBy, Ne.symm hj]
          · rename_i rest he
            refine h.log_setSlot i s _ [] hs rfl (by simp [State.setSlot]) ?_ rfl (by simp)
            simp [logsOf, reportsOf, he]
          · split
            · exact h.log_setSlot i s _ [] hs rfl (by simp [State.setSlot]) rfl rfl (by simp)
            · exact h
    | closeFeeds i =>
      simp only [stepCloseFeeds]
      split
      · exact h
      · rename_i s hs
        exact h.log_setSlot i s _ [] hs rfl (by simp [State.setSlot]) rfl rfl (by simp)

theorem LogInv.log_run (cfg : RunEnv) (sched : List Action) : LogInv (run cfg sched) := by
  have start : LogInv State.start := ⟨by simp [State.start], by simp [State.start]⟩
  have gen : ∀ (l : List Action) (st : State), LogInv st → LogInv (runFrom cfg st l) := by
    intro l
    induction l with
    | nil => intro st h; exact h
    | cons a t ih => intro st h; exact ih _ (h.log_step cfg a)
  exact gen sched _ start

theorem ExitedAt.keep_same {i : Nat} {st st' : State} (h : ExitedAt i st)
    (hs : st'.slots = st.slots) : ExitedAt i st' := by
  unfold ExitedAt; rw [hs]; exact h

theorem ExitedAt.keep_set {i : Nat} {st st' : State} (h : ExitedAt i st) (j : Nat) (sj s' : Slot)
    (hj : st.slots[j]? = some sj) (hs : st'.slots = st.slots.set j s')
    (hw : sj.worker = .exited → s'.worker = .exited) : ExitedAt i st' := by
  obtain ⟨s, hi, he⟩ := h
  have hlt : j < st.slots.length := (List.getElem?_eq_some_iff.1 hj).1
  unfold ExitedAt; rw [hs]
  by_cases hji : j = i
  · subst hji
    rw [hj] at hi; cases hi
    exact ⟨s', List.getElem?_set_self hlt, hw he⟩
  · exact ⟨s, by rw [List.getElem?_set_ne hji]; exact hi, he⟩

theorem ExitedAt.keep_append {i : Nat} {st st' : State} (h : ExitedAt i st) (x : Slot)
    (hs : st'.slots = st.slots ++ [x]) : ExitedAt i st' := by
  obtain ⟨s, hi, he⟩ := h
  have hlt : i < st.slots.length := (List.getElem?_eq_some_iff.1 hi).1
  exact ⟨s, by rw [hs, List.getElem?_append_left hlt]; exact hi, he⟩

theorem ExitedAt.keep_step (cfg : RunEnv) {i : Nat} {st : State} (h : ExitedAt i st) (a : Action) :
    ExitedAt i (step cfg st a) := by
  unfold step
  split
  · exact h
  · cases a with
    | main =>
      simp only [stepMain]
      repeat' split
      all_goals first
        | exact h
        | exact h.keep_same rfl
        | exact h.keep_append _ rfl
    | watcher =>
      simp only [stepWatcher]
      repeat' split
      all_goals exact h
    | signal =>
      simp only [stepSignal]
      repeat' split
      all_goals exact h
    | worker j =>
      simp only [stepWorker]
      split
      · exact h
      · rename_i s hs
        split
        · rename_i hw
          have hne : s.worker = .exited → False := by rw [hw]; intro hx; cases hx
          repeat' split
          all_goals first
            | exact h
            | exact h.keep_same rfl
            | exact h.keep_set j s _ hs rfl (fun hx => (hne hx).elim)
        · rename_i m hw
          have hne : s.worker = .exited → False := by rw [hw]; intro hx; cases hx
          repeat' split
          all_goals first
            | exact h
            | exact h.keep_same rfl
            | exact h.keep_set j s _ hs rfl (fun hx => (hne hx).elim)
        · rename_i m hw
          have hne : s.worker = .exited → False := by rw [hw]; intro hx; cases hx
          exact h.keep_set j s _ hs rfl (fun hx => (hne hx).elim)
        · exact h
    | closer j =>
      simp only [stepCloser]
      split
      · exact h
      · rename_i s hs
        repeat' split
        all_goals first
          | exact h
          | exact h.keep_set j s _ hs rfl (fun hx => hx)
    | monitor j =>
      simp only [stepMonitor]
      split
      · exact h
      · rename_i s hs
        repeat' split
        all_goals first
          | exact h
          | exact h.keep_set j s _ hs rfl (fun hx => hx)
    | closeFeeds j =>
      simp only [stepCloseFeeds]
      split
      · exact h
      · rename_i s hs
        exact h.keep_set j s _ hs rfl (fun hx => hx)

theorem ExitedAt.keep_runFrom (cfg : RunEnv) {i : Nat} (sched : List Action) {st : State}
    (h : ExitedAt i st) : ExitedAt i (runFrom cfg st sched) := by
  induction sched generalizing st with
  | nil => exact h
  | cons a t ih => exact ih (h.keep_step cfg a)

/-- C6 counterexample: with zero partitions and no signal ever delivered, six steps of
`main` close the Messages bus while the Closing channel is still open. -/
theorem zero_partitions_bus_closed_unsignalled :
    ConsumeAndIndex emptyCfg.partitions [] 0 = { err := none, spawned := [], wg := 0 } ∧
    Action.signal ∉ List.replicate 6 Action.main ∧
    (run emptyCfg (List.replicate 6 Action.main)).messagesClosed = true ∧
    (run emptyCfg (List.replicate 6 Action.main)).closing = false ∧
    (run emptyCfg (List.replicate 6 Action.main)).trace = [Event.closeMessages] := by
  decide

/-- C6 amended: with zero partitions `ConsumeAndIndex` starts nothing and returns no error;
in every run there is no worker and the wait-group counter is zero, so `wg.Wait()`
never blocks: whenever `main` stands at the wait, its next two steps close the
Messages bus; and when `NewIndexer` succeeds `main` alone, without any signal, closes
the bus in six steps while the Closing channel is still open. -/
theorem zero_partitions_close_at_once (cfg : RunEnv) (h0 : cfg.partitions = []) :
    (∀ g wg, ConsumeAndIndex cfg.partitions g wg = { err := none, spawned := g, wg := wg }) ∧
    (∀ sched, (run cfg sched).slots = [] ∧ (run cfg sched).wg = 0) ∧
    (∀ sched, (run cfg sched).halted = false → (run cfg sched).main = .wait →
        (run cfg (sched ++ [.main, .main])).messagesClosed = true) ∧
    (cfg.newIndexerOk = true →
        (run cfg (List.replicate 6 Action.main)).messagesClosed = true ∧
        (run cfg (List.replicate 6 Action.main)).closing = false) := by
  have hz : ∀ sched, (run cfg sched).slots = [] ∧ (run cfg sched).wg = 0 := by
    intro sched
    have hc := CtrlInv.ctrl_run cfg sched
    have hl := hc.slotsLen
    rw [h0] at hl
    have hs : (run cfg sched).slots = [] :=
      List.length_eq_zero.1 (by simp only [List.length_nil] at hl; omega)
    exact ⟨hs, by rw [hc.wgCount, hs]; rfl⟩
  refine ⟨?_, hz, ?_, ?_⟩
  · intro g wg; rw [h0]; rfl
  · intro sched hh hm
    have hc := CtrlInv.ctrl_run cfg sched
    have hcl : (run cfg sched).messagesClosed = false := by rw [hc.closedMain, hm]; rfl
    rw [run_append]
    simp [runFrom, step, stepMain, hh, hm, (hz sched).2, hcl]
  · intro hi
    simp [run, runFrom, List.replicate, step, stepMain, State.start, h0, hi]

/-- C6 amended, witness: the configuration with no partitions. -/
theorem zero_partitions_close_at_once_witness :
    emptyCfg.partitions = [] ∧ emptyCfg.newIndexerOk = true ∧
      (run emptyCfg (List.replicate 6 Action.main)).messagesClosed = true ∧
      (run emptyCfg (List.replicate 6 Action.main)).closing = false :=
  ⟨rfl, rfl, (zero_partitions_close_at_once emptyCfg rfl).2.2.2 rfl⟩

/-- C7 counterexample: the feeds of the only partition close although no signal was
delivered; the worker leaves its loop and the error monitor runs to its end, and the
trace holds the worker's `wg.Done()` and no error report. -/
theorem silent_termination_reports_nothing :
    (run silentCfg silentSchedule).closing = false ∧
    (run silentCfg silentSchedule).slots.map (fun s => (s.worker, s.feedsClosed, s.monitorDone))
      = [(WorkerPC.exited, true, true)] ∧
    (run silentCfg silentSchedule).trace = [Event.workerDone 0] := by
  decide

/-- C7 amended: a worker whose message stream has closed and is drained leaves its
loop at its next step, with `wg.Done()` as the only event, whether or not the signal
was fired: it reports no error. The error reports of a partition are, in order, the
first non-nil values of the `Errors()` feed of its own consumer, written by
`HandlePartitionConsumerErrors`. There is at most one worker per entry of the
partition list, and a worker that has left its loop never runs again. -/
theorem worker_exits_silently_no_restart (cfg : RunEnv) (sched : List Action) (i : Nat) (s : Slot)
    (hs : (run cfg sched).slots[i]? = some s) :
    ((run cfg sched).halted = false → s.worker = .recv → s.msgs = [] → s.feedsClosed = true →
        ExitedAt i (run cfg (sched ++ [.worker i])) ∧
        (run cfg (sched ++ [.worker i])).trace = (run cfg sched).trace ++ [Event.workerDone i]) ∧
    (∃ rest, logsOf i (run cfg sched).trace ++ rest = reportsOf s.partition s.sc.pc.Errors) ∧
    (run cfg sched).slots.length ≤ cfg.partitions.length ∧
    (s.worker = .exited → ∀ more, ExitedAt i (run cfg (sched ++ more))) := by
  have hc := CtrlInv.ctrl_run cfg sched
  refine ⟨?_, ⟨_, (LogInv.log_run cfg sched).logs i s hs⟩, ?_, ?_⟩
  · intro hh hw hm hf
    have hr : s.running = true := by simp [Slot.running, hw]
    have hpos := countP_running_pos hs hr
    have hwg : (run cfg sched).wg ≠ 0 := by rw [hc.wgCount]; omega
    have hlt : i < (run cfg sched).slots.length := (List.getElem?_eq_some_iff.1 hs).1
    rw [run_append]
    simp only [runFrom, List.foldl_cons, List.foldl_nil, step, hh, stepWorker, hs, hw, hm, hf]
    simp only [Bool.false_eq_true, if_false, if_true, hwg]
    exact ⟨⟨_, List.getElem?_set_self hlt, rfl⟩, trivial⟩
  · have := hc.slotsLen; omega
  · intro he more
    rw [run_append]
    exact ExitedAt.keep_runFrom cfg more ⟨s, hs, he⟩

/-- C7 amended, witness: in the one-partition run, before the worker's last step. -/
theorem worker_exits_silently_no_restart_witness :
    (run silentCfg (silentSchedule.take 7)).slots[0]? = some silentSlot ∧
    ExitedAt 0 (run silentCfg (silentSchedule.take 7 ++ [.worker 0])) ∧
    (run silentCfg (silentSchedule.take 7 ++ [.worker 0])).trace
      = (run silentCfg (silentSchedule.take 7)).trace ++ [Event.workerDone 0] :=
  ⟨by decide,
   (worker_exits_silently_no_restart silentCfg (silentSchedule.take 7) 0 silentSlot (by decide)).1
      (by decide) rfl rfl rfl⟩

theorem worker_step_progress {cfg : RunEnv} {st : State} {i : Nat} {s : Slot} (hc : CtrlInv cfg st)
    (hh : st.halted = false) (hx : st.indexer = true) (hs : st.slots[i]? = some s)
    (hf : s.feedsClosed = true) (hne : s.worker ≠ .exited) :
    (step cfg st (.worker i)).halted = false ∧ (step cfg st (.worker i)).indexer = true ∧
      ∃ s', (step cfg st (.worker i)).slots[i]? = some s' ∧ s'.feedsClosed = true ∧
        s'.stepsLeft + 1 = s.stepsLeft := by
  have hlt : i < st.slots.length := (List.getElem?_eq_some_iff.1 hs).1
  have hr : s.running = true := by
    cases hw : s.worker <;> simp_all [Slot.running]
  have hpos := countP_running_pos hs hr
  have hwg : st.wg ≠ 0 := by rw [hc.wgCount]; omega
  have hopen : st.messagesClosed = false := by
    cases hcl : st.messagesClosed
    · rfl
    · have := hc.pastWait (MainPC.pastWait_of_pastClose (by rw [← hc.closedMain]; exact hcl))
      omega
  cases hw : s.worker with
  | recv =>
    cases hm : s.msgs with
    | nil =>
      have hstep : step cfg st (.worker i) =
          { st with wg := st.wg - 1, slots := st.slots.set i { s with worker := .exited },
                    trace := st.trace ++ [.workerDone i] } := by
        simp [step, hh, stepWorker, hs, hw, hm, hf, hwg]
      rw [hstep]
      exact ⟨hh, hx, _, List.getElem?_set_self hlt, hf, by simp [Slot.stepsLeft, hw, hm]⟩
    | cons m rest =>
      have hstep : step cfg st (.worker i) =
          st.setSlot i { s with msgs := rest, worker := .send m } := by
        simp [step, hh, stepWorker, hs, hw, hm]
      rw [hstep]
      exact ⟨hh, hx, _, List.getElem?_set_self hlt, hf, by simp [Slot.stepsLeft, hw, hm]; omega⟩
  | send m =>
    have hstep : step cfg st (.worker i) =
        { st with slots := st.slots.set i { s with worker := .mark m },
                  trace := st.trace ++ [.send i m] } := by
      simp [step, hh, stepWorker, hs, hw, hopen, hx]
    rw [hstep]
    exact ⟨hh, hx, _, List.getElem?_set_self hlt, hf, by simp [Slot.stepsLeft, hw]⟩
  | mark m =>
    have hstep : step cfg st (.worker i) =
        { st with slots := st.slots.set i { s with worker := .recv },
                  trace := st.trace ++ [.markOffset i s.sc.pm.id (checkpointOf m)] } := by
      simp [step, hh, stepWorker, hs, hw]
    rw [hstep]
    exact ⟨hh, hx, _, List.getElem?_set_self hlt, hf, by simp [Slot.stepsLeft, hw]⟩
  | exited => exact absurd hw hne

theorem worker_runs_out {cfg : RunEnv} (i : Nat) (k : Nat) :
    ∀ (st : State) (s : Slot), CtrlInv cfg st → st.halted = false → st.indexer = true →
      st.slots[i]? = some s → s.feedsClosed = true → s.stepsLeft ≤ k →
      ExitedAt i (runFrom cfg st (List.replicate k (.worker i))) := by
  induction k with
  | zero =>
    intro st s _ _ _ hs _ hk
    refine ⟨s, hs, ?_⟩
    cases hw : s.worker <;> simp [Slot.stepsLeft, hw] at hk
    rfl
  | succ k ih =>
    intro st s hc hh hx hs hf hk
    by_cases he : s.worker = .exited
    · exact ExitedAt.keep_runFrom cfg _ ⟨s, hs, he⟩
    · obtain ⟨h1, h2, s', h3, h4, h5⟩ := worker_step_progress hc hh hx hs hf he
      simp only [List.replicate_succ, runFrom, List.foldl_cons]
      exact ih _ s' (hc.ctrl_step _) h1 h2 h3 h4 (by omega)

theorem wrapInt64_of_inRange (x : Int) (h1 : -2 ^ 63 ≤ x) (h2 : x < 2 ^ 63) : wrapInt64 x = x := by
  unfold wrapInt64
  have : (x + 2 ^ 63) % 2 ^ 64 = x + 2 ^ 63 := Int.emod_eq_of_lt (by omega) (by omega)
  omega

/-- C8: in every run, once the worker of a partition has left its loop, the
messages it handed to the bus are exactly the sequence its consumer yielded, each
once and in order, and its checkpoints are `Offset+1` (in `int64`) of those messages
in order, so the last checkpoint is that of the last message and there is none when
the sequence is empty. The worker does get there: in any state of a run in which
the process is alive and the bus is being read, once the stream closes the worker
leaves its loop within `3 * (messages not yet pulled) + 3` of its own steps. For
offsets below the largest `int64` the checkpoint is the integer `Offset + 1`. -/
theorem worker_delivers_source_exactly (cfg : RunEnv) (sched : List Action) (i : Nat) (s : Slot)
    (hs : (run cfg sched).slots[i]? = some s) :
    (s.worker = .exited →
      sendsOf i (run cfg sched).trace = s.sc.pc.Messages ∧
      marksOf i (run cfg sched).trace
        = s.sc.pc.Messages.map (fun m => wrapInt64 (m.Offset + 1)) ∧
      (marksOf i (run cfg sched).trace).getLast?
        = s.sc.pc.Messages.getLast?.map (fun m => wrapInt64 (m.Offset + 1)) ∧
      (s.sc.pc.Messages = [] → marksOf i (run cfg sched).trace = [])) ∧
    ((run cfg sched).halted = false → (run cfg sched).indexer = true →
      ExitedAt i (run cfg
        (sched ++ .closeFeeds i :: List.replicate (3 * s.msgs.length + 3) (.worker i)))) ∧
    (∀ m ∈ s.sc.pc.Messages, -2 ^ 63 ≤ m.Offset → m.Offset < 2 ^ 63 - 1 →
      wrapInt64 (m.Offset + 1) = m.Offset + 1) := by
  have ok := (DataInv.data_run cfg sched).slot i s hs
  have hc := CtrlInv.ctrl_run cfg sched
  refine ⟨?_, ?_, ?_⟩
  · intro he
    have h1 : sendsOf i (run cfg sched).trace = s.sc.pc.Messages := by
      simpa [Slot.pending, he, ok.exitedEmpty he] using ok.sends
    have h2 : marksOf i (run cfg sched).trace
        = s.sc.pc.Messages.map (fun m => wrapInt64 (m.Offset + 1)) := by
      have := ok.marks
      rw [h1] at this
      simpa [Slot.owedMark, he] using this
    refine ⟨h1, h2, ?_, ?_⟩
    · rw [h2, List.getLast?_map]
    · intro hn; rw [h2, hn]; rfl
  · intro hh hx
    have hlt : i < (run cfg sched).slots.length := (List.getElem?_eq_some_iff.1 hs).1
    rw [run_append]
    simp only [runFrom, List.foldl_cons]
    have hstep : step cfg (run cfg sched) (.closeFeeds i)
        = (run cfg sched).setSlot i { s with feedsClosed := true } := by
      simp [step, hh, stepCloseFeeds, hs]
    have hc' : CtrlInv cfg (step cfg (run cfg sched) (.closeFeeds i)) := hc.ctrl_step _
    rw [hstep] at hc' ⊢
    refine worker_runs_out i _ _ { s with feedsClosed := true } hc' hh hx ?_ rfl ?_
    · simp only [State.setSlot]; exact List.getElem?_set_self hlt
    · simp only [Slot.stepsLeft]; split <;> omega
  · intro m _ h1 h2
    exact wrapInt64_of_inRange _ (by omega) (by omega)

/-- C8 witness: partitions yielding offsets 10, 11, 12, offset 5 and nothing give four
delivered messages and last checkpoints 13, 6 and none. -/
theorem worker_delivers_source_exactly_witness :
    (delivered (run threeCfg threeSchedule).trace).length = 4 ∧
    (marksOf 0 (run threeCfg threeSchedule).trace).getLast? = some 13 ∧
    (marksOf 1 (run threeCfg threeSchedule).trace).getLast? = some 6 ∧
    marksOf 2 (run threeCfg threeSchedule).trace = [] ∧
    (run threeCfg threeSchedule).slots[0]? = some threeSlot0 ∧
    (sendsOf 0 (run threeCfg threeSchedule).trace = threeSlot0.sc.pc.Messages ∧
      marksOf 0 (run threeCfg threeSchedule).trace
        = threeSlot0.sc.pc.Messages.map (fun m => wrapInt64 (m.Offset + 1)) ∧
      (marksOf 0 (run threeCfg threeSchedule).trace).getLast?
        = threeSlot0.sc.pc.Messages.getLast?.map (fun m => wrapInt64 (m.Offset + 1)) ∧
      (threeSlot0.sc.pc.Messages = [] → marksOf 0 (run threeCfg threeSchedule).trace = [])) :=
  ⟨by decide, by decide, by decide, by decide, by decide,
   (worker_delivers_source_exactly threeCfg threeSchedule 0 threeSlot0 (by decide)).1 rfl⟩

theorem step_signal_idem (cfg : RunEnv) (st : State) :
    step cfg (step cfg st .signal) .signal = step cfg st .signal := by
  by_cases hh : st.halted = true
  · simp [step, hh]
  · cases hw : st.watcher <;> by_cases hb : st.sigBuf = 0 <;>
      simp [step, stepSignal, hh, hw, hb]

theorem runFrom_signals (cfg : RunEnv) (n : Nat) (st : State) :
    runFrom cfg st (List.replicate (n + 1) .signal) = step cfg st .signal := by
  induction n generalizing st with
  | zero => rfl
  | succ n ih =>
    rw [List.replicate_succ, runFrom, List.foldl_cons]
    have := ih (step cfg st .signal)
    rw [runFrom] at this
    rw [this, step_signal_idem]

theorem step_sigBuf (cfg : RunEnv) (st : State) (b : Nat) (a : Action)
    (hw : st.watcher = .closing ∨ st.watcher = .returned) (hm : st.main ≠ .goWatch)
    (ha : a ≠ .signal) :
    step cfg { st with sigBuf := b } a = { step cfg st a with sigBuf := b } ∧
      ((step cfg st a).watcher = .closing ∨ (step cfg st a).watcher = .returned) := by
  cases a with
  | signal => exact absurd rfl ha
  | main =>
    simp only [step, stepMain]
    repeat' split
    all_goals simp_all [State.fatal, State.goPanic]
  | watcher =>
    simp only [step, stepWatcher]
    repeat' split
    all_goals simp_all [State.fatal, State.goPanic]
  | worker i =>
    simp only [step, stepWorker]
    repeat' split
    all_goals simp_all [State.fatal, State.goPanic, State.setSlot]
  | closer i =>
    simp only [step, stepCloser]
    repeat' split
    all_goals simp_all [State.fatal, State.goPanic, State.setSlot]
  | monitor i =>
    simp only [step, stepMonitor]
    repeat' split
    all_goals simp_all [State.fatal, State.goPanic, State.setSlot]
  | closeFeeds i =>
    simp only [step, stepCloseFeeds]
    repeat' split
    all_goals simp_all [State.fatal, State.goPanic, State.setSlot]

theorem pipeline_eq {st st' : State} (h : st.pipeline = st'.pipeline) :
    st' = { st with sigBuf := st'.sigBuf } := by
  cases st; cases st'
  simp only [State.pipeline, State.mk.injEq] at h
  simp [h]

theorem pipeline_sigBuf (st : State) (b : Nat) :
    State.pipeline { st with sigBuf := b } = st.pipeline := rfl

theorem unfired_step (cfg : RunEnv) {st : State} (h : Unfired st) (a : Action) (ha : a ≠ .signal) :
    Unfired (step cfg st a) := by
  obtain ⟨hb, hw⟩ := h
  unfold Unfired
  cases a with
  | signal => exact absurd rfl ha
  | main =>
    simp only [step, stepMain]
    repeat' split
    all_goals simp_all [State.fatal, State.goPanic]
  | watcher =>
    simp only [step, stepWatcher]
    repeat' split
    all_goals simp_all [State.fatal, State.goPanic]
  | worker i =>
    simp only [step, stepWorker]
    repeat' split
    all_goals simp_all [State.fatal, State.goPanic, State.setSlot]
  | closer i =>
    simp only [step, stepCloser]
    repeat' split
    all_goals simp_all [State.fatal, State.goPanic, State.setSlot]
  | monitor i =>
    simp only [step, stepMonitor]
    repeat' split
    all_goals simp_all [State.fatal, State.goPanic, State.setSlot]
  | closeFeeds i =>
    simp only [step, stepCloseFeeds]
    repeat' split
    all_goals simp_all [State.fatal, State.goPanic, State.setSlot]

theorem waiting_step (cfg : RunEnv) {st : State} (hh : st.halted = false)
    (hw : st.watcher = .waiting) (hb : st.sigBuf = 1) (hm : st.main ≠ .goWatch) (a : Action)
    (ha : a ≠ .signal) :
    (step cfg st a).halted = true ∨
      ((step cfg st a).watcher = .waiting ∧ (step cfg st a).sigBuf = 1) ∨
      (step cfg st a).watcher = .closing := by
  cases a with
  | signal => exact absurd rfl ha
  | main =>
    simp only [step, stepMain]
    repeat' split
    all_goals simp_all [State.fatal, State.goPanic]
  | watcher =>
    simp only [step, stepWatcher]
    repeat' split
    all_goals simp_all [State.fatal, State.goPanic]
  | worker i =>
    simp only [step, stepWorker]
    repeat' split
    all_goals simp_all [State.fatal, State.goPanic, State.setSlot]
  | closer i =>
    simp only [step, stepCloser]
    repeat' split
    all_goals simp_all [State.fatal, State.goPanic, State.setSlot]
  | monitor i =>
    simp only [step, stepMonitor]
    repeat' split
    all_goals simp_all [State.fatal, State.goPanic, State.setSlot]
  | closeFeeds i =>
    simp only [step, stepCloseFeeds]
    repeat' split
    all_goals simp_all [State.fatal, State.goPanic, State.setSlot]

theorem main_ne_goWatch {cfg : RunEnv} {st : State} (hc : CtrlInv cfg st)
    (hw : st.watcher ≠ .notStarted) : st.main ≠ .goWatch :=
  fun hm => hw (hc.watcherStart hm)

theorem absorbed_signal (cfg : RunEnv) {st st' : State} (h : Absorbed st st') :
    Absorbed (step cfg st .signal) st' := by
  obtain ⟨hp, hd⟩ := h
  by_cases hh : st.halted = true
  · rw [step_halted cfg hh]; exact ⟨hp, hd⟩
  · rcases hd with hd | ⟨hw, hb, hb'⟩ | hw | hw
    · exact absurd hd hh
    · have : step cfg st .signal = st := by simp [step, stepSignal, hh, hw, hb]
      rw [this]; exact ⟨hp, Or.inr (Or.inl ⟨hw, hb, hb'⟩)⟩
    · by_cases hb : st.sigBuf = 0
      · have : step cfg st .signal = { st with sigBuf := 1 } := by
          simp [step, stepSignal, hh, hw, hb]
        rw [this]; exact ⟨hp, Or.inr (Or.inr (Or.inl hw))⟩
      · have : step cfg st .signal = st := by simp [step, stepSignal, hh, hw, hb]
        rw [this]; exact ⟨hp, Or.inr (Or.inr (Or.inl hw))⟩
    · by_cases hb : st.sigBuf = 0
      · have : step cfg st .signal = { st with sigBuf := 1 } := by
          simp [step, stepSignal, hh, hw, hb]
        rw [this]; exact ⟨hp, Or.inr (Or.inr (Or.inr hw))⟩
      · have : step cfg st .signal = st := by simp [step, stepSignal, hh, hw, hb]
        rw [this]; exact ⟨hp, Or.inr (Or.inr (Or.inr hw))⟩

theorem unfired_signal (cfg : RunEnv) {st : State} (h : Unfired st) :
    Absorbed (step cfg st .signal) (step cfg st .signal) := by
  obtain ⟨hb, hw⟩ := h
  refine ⟨rfl, ?_⟩
  by_cases hh : st.halted = true
  · rw [step_halted cfg hh]; exact Or.inl hh
  · rcases hw with hw | hw | hw
    · left; simp [step, stepSignal, hh, hw]
    · left; simp [step, stepSignal, hh, hw]
    · right; left; simp [step, stepSignal, hh, hw, hb]

theorem absorbed_step (cfg : RunEnv) {st st' : State} (hc : CtrlInv cfg st) (h : Absorbed st st')
    (a : Action) (ha : a ≠ .signal) : Absorbed (step cfg st a) (step cfg st' a) := by
  obtain ⟨hp, hd⟩ := h
  have he := pipeline_eq hp
  by_cases hh : st.halted = true
  · have hh' : st'.halted = true := by rw [he]; exact hh
    rw [step_halted cfg hh, step_halted cfg hh']
    exact ⟨hp, Or.inl hh⟩
  · have hf : st.halted = false := by simpa using hh
    rcases hd with hd | ⟨hw, hb, hb'⟩ | hw | hw
    · exact absurd hd hh
    · have hst : st' = st := by rw [he, hb', ← hb]
      rw [hst]
      refine ⟨rfl, ?_⟩
      have hm := main_ne_goWatch hc (by rw [hw]; simp)
      rcases waiting_step cfg hf hw hb hm a ha with h1 | ⟨h1, h2⟩ | h1
      · exact Or.inl h1
      · exact Or.inr (Or.inl ⟨h1, h2, h2⟩)
      · exact Or.inr (Or.inr (Or.inl h1))
    · have hm := main_ne_goWatch hc (by rw [hw]; simp)
      obtain ⟨h1, h2⟩ := step_sigBuf cfg st st'.sigBuf a (Or.inl hw) hm ha
      rw [he, h1]
      exact ⟨(pipeline_sigBuf _ _).symm, Or.inr (Or.inr h2)⟩
    · have hm := main_ne_goWatch hc (by rw [hw]; simp)
      obtain ⟨h1, h2⟩ := step_sigBuf cfg st st'.sigBuf a (Or.inr hw) hm ha
      rw [he, h1]
      exact ⟨(pipeline_sigBuf _ _).symm, Or.inr (Or.inr h2)⟩

theorem signal_sim (cfg : RunEnv) (sched : List Action) :
    ∀ (seen : Bool) (st st' : State), CtrlInv cfg st →
      (if seen then Absorbed st st' else st = st' ∧ Unfired st) →
      (runFrom cfg st sched).pipeline
        = (runFrom cfg st' (firstSignalOnly seen sched)).pipeline := by
  induction sched with
  | nil =>
    intro seen st st' _ h
    cases seen
    · simp only [Bool.false_eq_true, if_false] at h
      rw [h.1]; rfl
    · simp only [if_true] at h
      exact h.1
  | cons a t ih =>
    intro seen st st' hc h
    by_cases ha : a = .signal
    · subst ha
      cases seen
      · simp only [Bool.false_eq_true, if_false] at h
        obtain ⟨hst, hu⟩ := h
        subst hst
        simp only [firstSignalOnly, if_true, Bool.false_eq_true, if_false, runFrom,
          List.foldl_cons]
        exact ih true _ _ (hc.ctrl_step _) (by simpa using unfired_signal cfg hu)
      · simp only [if_true] at h
        simp only [firstSignalOnly, if_true, runFrom, List.foldl_cons]
        exact ih true _ _ (hc.ctrl_step _) (by simpa using absorbed_signal cfg h)
    · cases seen
      · simp only [Bool.false_eq_true, if_false] at h
        obtain ⟨hst, hu⟩ := h
        subst hst
        simp only [firstSignalOnly, ha, if_false, runFrom, List.foldl_cons]
        exact ih false _ _ (hc.ctrl_step _) (by simpa using unfired_step cfg hu a ha)
      · simp only [if_true] at h
        simp only [firstSignalOnly, ha, if_false, runFrom, List.foldl_cons]
        exact ih true _ _ (hc.ctrl_step _) (by simpa using absorbed_step cfg hc h a ha)

/-- C4: delivering the shutdown signal is idempotent. For every `n ≥ 1`, delivering it
`n` times in a row at any point of any run leaves exactly the state that one delivery
leaves, whatever happens afterwards. Deliveries at different moments change nothing
for the pipeline either: a run and the same run with every delivery after the first
removed end in the same state apart from the content of the private channel
`signals`. And in every run, with any number of deliveries, nothing panics,
`close(*c)` happens at most once and `close(k.Messages)` at most once. -/
theorem shutdown_signal_idempotent (cfg : RunEnv) (sched : List Action) (n : Nat) (hn : 1 ≤ n) :
    (∀ more, run cfg (sched ++ List.replicate n Action.signal ++ more)
        = run cfg (sched ++ [Action.signal] ++ more)) ∧
    (run cfg sched).pipeline = (run cfg (firstSignalOnly false sched)).pipeline ∧
    (run cfg sched).panicked = false ∧
    (run cfg sched).trace.count Event.closeClosing ≤ 1 ∧
    (run cfg sched).trace.count Event.closeMessages ≤ 1 := by
  have hc := CtrlInv.ctrl_run cfg sched
  refine ⟨?_, ?_, hc.noPanic, ?_, ?_⟩
  · intro more
    obtain ⟨k, rfl⟩ : ∃ k, n = k + 1 := ⟨n - 1, by omega⟩
    rw [run_append, run_append, run_append, run_append, runFrom_signals]
    rfl
  · exact signal_sim cfg sched false State.start State.start (CtrlInv.ctrl_start cfg)
      (by simp [Unfired, State.start])
  · rw [hc.cntClosing]; split <;> omega
  · rw [hc.cntMessages]; split <;> omega

/-- C4 witness: the three-partition run, in which the signal is delivered twice. -/
theorem shutdown_signal_idempotent_witness :
    (1 ≤ 2) ∧
    (∀ more, run threeCfg (threeSchedule ++ List.replicate 2 Action.signal ++ more)
        = run threeCfg (threeSchedule ++ [Action.signal] ++ more)) ∧
    (run threeCfg threeSchedule).pipeline
      = (run threeCfg (firstSignalOnly false threeSchedule)).pipeline ∧
    (run threeCfg threeSchedule).panicked = false ∧
    (run threeCfg threeSchedule).trace.count Event.closeClosing ≤ 1 ∧
    (run threeCfg threeSchedule).trace.count Event.closeMessages ≤ 1 :=
  ⟨by decide, shutdown_signal_idempotent threeCfg threeSchedule 2 (by decide)⟩

theorem SetLocationData_TimeFlowStart (e : ESIndexer) (msg : FlowMessage) (f : FlowRecord) :
    (e.SetLocationData msg f).TimeFlowStart = f.TimeFlowStart := by
  unfold ESIndexer.SetLocationData
  repeat' split
  all_goals rfl

theorem makeDoc_TimeFlowStart (e : ESIndexer) (msg : FlowMessage) :
    (e.makeDoc msg).TimeFlowStart = msg.TimeFlowStart * 1000 % 2 ^ 64 := by
  unfold ESIndexer.makeDoc
  simp only [wrapUint64]
  split
  · rw [SetLocationData_TimeFlowStart]; rfl
  · rfl

theorem submitted_indexLoop (e : ESIndexer) (msgs : List ConsumerMessage) (n : Nat) :
    submitted (e.indexLoop msgs n) = (msgs.filterMap e.decoded).map e.makeDoc := by
  induction msgs generalizing n with
  | nil => rfl
  | cons m rest ih =>
    cases hu : e.Unmarshal m.Value with
    | err err =>
      simp only [ESIndexer.indexLoop, hu, List.filterMap_cons, ESIndexer.decoded]
      simpa [submitted] using ih n
    | ok sflowMsg =>
      cases hd : e.IndexDo n (e.makeDoc sflowMsg) with
      | none =>
        simp only [ESIndexer.indexLoop, hu, hd, List.filterMap_cons, ESIndexer.decoded, List.map_cons]
        simpa [submitted] using ih (n + 1)
      | some err =>
        simp only [ESIndexer.indexLoop, hu, hd, List.filterMap_cons, ESIndexer.decoded, List.map_cons]
        simpa [submitted] using ih (n + 1)

theorem unmarshalErrs_indexLoop (e : ESIndexer) (msgs : List ConsumerMessage) (n : Nat) :
    (unmarshalErrs (e.indexLoop msgs n)).length + (submitted (e.indexLoop msgs n)).length
      = msgs.length := by
  induction msgs generalizing n with
  | nil => rfl
  | cons m rest ih =>
    cases hu : e.Unmarshal m.Value with
    | err err =>
      simp only [ESIndexer.indexLoop, hu]
      have := ih n
      simp [submitted, unmarshalErrs] at this ⊢
      omega
    | ok sflowMsg =>
      cases hd : e.IndexDo n (e.makeDoc sflowMsg) with
      | none =>
        simp only [ESIndexer.indexLoop, hu, hd]
        have := ih (n + 1)
        simp [submitted, unmarshalErrs] at this ⊢
        omega
      | some err =>
        simp only [ESIndexer.indexLoop, hu, hd]
        have := ih (n + 1)
        simp [submitted, unmarshalErrs] at this ⊢
        omega

/-- C10: for every finite sequence of messages read from the bus, whatever the sink
answers to each write, the documents `Index` submits are exactly the documents built
from the messages whose payload decodes, in bus order, one for each; every message
is either submitted or logged as a decode failure (the loop stops for neither a
failed decode nor a failed write); each submitted document is built from its decoded
message with `TimeFlowStart` equal to the decoded value times 1000 modulo `2^64`; and
`Client.Stop()` comes last. -/
theorem index_submits_decodable_in_order (e : ESIndexer) (msgs : List ConsumerMessage) :
    submitted (e.Index msgs) = (msgs.filterMap e.decoded).map e.makeDoc ∧
    (submitted (e.Index msgs)).map FlowRecord.TimeFlowStart
      = (msgs.filterMap e.decoded).map (fun sflowMsg => sflowMsg.TimeFlowStart * 1000 % 2 ^ 64) ∧
    (unmarshalErrs (e.Index msgs)).length + (submitted (e.Index msgs)).length = msgs.length ∧
    (e.Index msgs).getLast? = some IndexEvent.clientStop := by
  have h1 : submitted (e.Index msgs) = (msgs.filterMap e.decoded).map e.makeDoc := by
    rw [ESIndexer.Index]
    simp only [submitted, List.filterMap_append]
    simpa [submitted] using submitted_indexLoop e msgs 0
  refine ⟨h1, ?_, ?_, ?_⟩
  · rw [h1, List.map_map]
    apply List.map_congr_left
    intro m _
    exact makeDoc_TimeFlowStart e m
  · have := unmarshalErrs_indexLoop e msgs 0
    rw [ESIndexer.Index]
    simpa [submitted, unmarshalErrs] using this
  · simp [ESIndexer.Index]

/-- C10 witness: of three messages the undecodable second is skipped, the failed
first write does not stop the loop, and the start times are multiplied by 1000
modulo `2^64`. -/
theorem index_submits_decodable_in_order_witness :
    (submitted (demoIndexer.Index demoMsgs)).map FlowRecord.TimeFlowStart
      = [5000, 18446744073709550616] :=
  (index_submits_decodable_in_order demoIndexer demoMsgs).2.1.trans (by decide)

end Kafkasflowes
